import Mathlib

/-!
Verification of the resilient stage-processing engine of the
speech-to-speech translation pipeline.

The pipeline's stages (`Message_Processor.py` relay stage,
`ASR_API_Manager.py` recognition stage, `MT_API_Manager.py` translation
stage, `TTS_API_Manager.py` synthesis stage, `send.py` delivery stage)
all follow the same shape: poll one message from an input queue with
`basic_get`, decode it, call an external service, publish the result, and
ack or nack the delivery. This file gives a shallow embedding of those
loops and of the JSON codec they rely on, and settles the frozen claims
about them.

Modelling conventions:
* Message payloads (`bytes` in the source) are modelled as `List Char`.
* Python's `json.loads` / `json.dumps` are modelled by an executable
  parser and serializer over a `Json` inductive.  JSON numbers are
  modelled as integers (floating-point formatting is out of scope), and
  the serializer emits non-ASCII characters raw rather than as ASCII
  escapes; neither restriction affects any claim below.
* Broker side effects (queue declaration, publish, ack, nack, sleeps,
  closing the connection) are recorded as an explicit action trace, and
  failures of external calls (HTTP timeouts, broker publish errors) are
  injected through explicit environment records mirroring the `except`
  arms of the source.
-/

/-! ## Named character constants, spelled by code point -/

def quoteChar : Char := Char.ofNat 34
def backslashChar : Char := Char.ofNat 92
def lbraceChar : Char := Char.ofNat 123
def rbraceChar : Char := Char.ofNat 125
def tabChar : Char := Char.ofNat 9
def nlChar : Char := Char.ofNat 10
def crChar : Char := Char.ofNat 13
def bsChar : Char := Char.ofNat 8
def ffChar : Char := Char.ofNat 12

/-! ## JSON values

`Json` models the values produced by Python's `json.loads`: objects keep
insertion order (`List` of key/value pairs), keys are strings.  Numbers
are modelled as integers. -/

inductive Json where
  | null : Json
  | bool (b : Bool) : Json
  | num (n : Int) : Json
  | str (s : List Char) : Json
  | arr (elems : List Json) : Json
  | obj (members : List (List Char × Json)) : Json

/-! ## Serialization: Python `json.dumps`

Default separators: elements joined by `", "`, keys and values by
`": "`.  Strings escape the quote, the backslash and control characters
(the five short escapes, `\u00XX` otherwise); other characters are
emitted raw. -/

def hexDigitChar (n : Nat) : Char :=
  if n < 10 then Char.ofNat (48 + n) else Char.ofNat (87 + n)

def escapeChar (c : Char) : List Char :=
  if c = quoteChar then [backslashChar, quoteChar]
  else if c = backslashChar then [backslashChar, backslashChar]
  else if c = nlChar then [backslashChar, 'n']
  else if c = tabChar then [backslashChar, 't']
  else if c = crChar then [backslashChar, 'r']
  else if c = bsChar then [backslashChar, 'b']
  else if c = ffChar then [backslashChar, 'f']
  else if c.toNat < 32 then
    [backslashChar, 'u', '0', '0', hexDigitChar (c.toNat / 16), hexDigitChar (c.toNat % 16)]
  else [c]

def escapeStr : List Char → List Char
  | [] => []
  | c :: rest => escapeChar c ++ escapeStr rest

/-- Decimal digits of a natural number, most significant first.  Fuel keeps
the recursion structural; `n + 1` units always suffice. -/
def natDigitsAux : Nat → Nat → List Char
  | 0, _ => []
  | fuel + 1, n =>
    if n < 10 then [Char.ofNat (48 + n)]
    else natDigitsAux fuel (n / 10) ++ [Char.ofNat (48 + n % 10)]

def natDigits (n : Nat) : List Char := natDigitsAux (n + 1) n

/-- Decimal rendering of an integer, as Python renders `int`. -/
def intDigits (n : Int) : List Char :=
  if n < 0 then '-' :: natDigits n.natAbs else natDigits n.natAbs

mutual
def dumpsVal : Json → List Char
  | .null => 'n' :: 'u' :: 'l' :: 'l' :: []
  | .bool true => 't' :: 'r' :: 'u' :: 'e' :: []
  | .bool false => 'f' :: 'a' :: 'l' :: 's' :: 'e' :: []
  | .num n => intDigits n
  | .str s => quoteChar :: escapeStr s ++ [quoteChar]
  | .arr [] => '[' :: ']' :: []
  | .arr (x :: xs) => '[' :: (dumpsVal x ++ dumpsElemsRest xs) ++ [']']
  | .obj [] => lbraceChar :: rbraceChar :: []
  | .obj (kv :: kvs) => lbraceChar :: (dumpsMember kv ++ dumpsMembersRest kvs) ++ [rbraceChar]

def dumpsElemsRest : List Json → List Char
  | [] => []
  | x :: xs => ',' :: ' ' :: (dumpsVal x ++ dumpsElemsRest xs)

def dumpsMember : List Char × Json → List Char
  | (k, v) => quoteChar :: escapeStr k ++ [quoteChar, ':', ' '] ++ dumpsVal v

def dumpsMembersRest : List (List Char × Json) → List Char
  | [] => []
  | kv :: kvs => ',' :: ' ' :: (dumpsMember kv ++ dumpsMembersRest kvs)
end

/-! ## Parsing: Python `json.loads` -/

def isWsChar (c : Char) : Bool :=
  c = ' ' || c = tabChar || c = nlChar || c = crChar

def skipWs : List Char → List Char
  | [] => []
  | c :: rest => if isWsChar c then skipWs rest else c :: rest

def hexVal (c : Char) : Option Nat :=
  if '0' ≤ c ∧ c ≤ '9' then some (c.toNat - 48)
  else if 'a' ≤ c ∧ c ≤ 'f' then some (c.toNat - 87)
  else if 'A' ≤ c ∧ c ≤ 'F' then some (c.toNat - 55)
  else none

/-- String body parser: input starts after the opening quote; returns the
decoded characters and the input after the closing quote.  Raw control
characters are rejected, as in Python's strict decoder.  The fuel only
keeps the recursion structural; every step consumes at least one input
character, so `length + 1` units always suffice. -/
def parseStr : Nat → List Char → Option (List Char × List Char)
  | 0, _ => none
  | _ + 1, [] => none
  | fuel + 1, c :: rest =>
    if c = quoteChar then some ([], rest)
    else if c = backslashChar then
      match rest with
      | [] => none
      | e :: rest2 =>
        if e = quoteChar then
          (parseStr fuel rest2).map fun p => (quoteChar :: p.1, p.2)
        else if e = backslashChar then
          (parseStr fuel rest2).map fun p => (backslashChar :: p.1, p.2)
        else if e = '/' then
          (parseStr fuel rest2).map fun p => ('/' :: p.1, p.2)
        else if e = 'n' then
          (parseStr fuel rest2).map fun p => (nlChar :: p.1, p.2)
        else if e = 't' then
          (parseStr fuel rest2).map fun p => (tabChar :: p.1, p.2)
        else if e = 'r' then
          (parseStr fuel rest2).map fun p => (crChar :: p.1, p.2)
        else if e = 'b' then
          (parseStr fuel rest2).map fun p => (bsChar :: p.1, p.2)
        else if e = 'f' then
          (parseStr fuel rest2).map fun p => (ffChar :: p.1, p.2)
        else if e = 'u' then
          match rest2 with
          | h1 :: h2 :: h3 :: h4 :: rest3 =>
            match hexVal h1, hexVal h2, hexVal h3, hexVal h4 with
            | some a, some b, some c2, some d =>
              (parseStr fuel rest3).map fun p =>
                (Char.ofNat (((a * 16 + b) * 16 + c2) * 16 + d) :: p.1, p.2)
            | _, _, _, _ => none
          | _ => none
        else none
    else if c.toNat < 32 then none
    else (parseStr fuel rest).map fun p => (c :: p.1, p.2)

def digitVal (c : Char) : Nat := c.toNat - 48

/-- Decimal digit test (`'0' <= c <= '9'`), phrased on code points. -/
def isDigitChar (c : Char) : Bool := 48 ≤ c.toNat && c.toNat ≤ 57

def parseDigitsAux : Nat → List Char → Nat × List Char
  | acc, [] => (acc, [])
  | acc, c :: rest =>
    if isDigitChar c then parseDigitsAux (acc * 10 + digitVal c) rest else (acc, c :: rest)

/-- A float literal would continue here; the integer-only model rejects it. -/
def startsFloat : List Char → Bool
  | [] => false
  | c :: _ => c = '.' || c = 'e' || c = 'E'

def parseNatNum : List Char → Option (Nat × List Char)
  | [] => none
  | c :: rest =>
    if c = '0' then
      if startsFloat rest then none
      else match rest with
        | d :: _ => if isDigitChar d then none else some (0, rest)
        | [] => some (0, [])
    else if isDigitChar c then
      let p := parseDigitsAux (digitVal c) rest
      if startsFloat p.2 then none else some (p.1, p.2)
    else none

def parseNumber : List Char → Option (Json × List Char)
  | [] => none
  | c :: rest =>
    if c = '-' then (parseNatNum rest).map fun p => (Json.num (-(p.1 : Int)), p.2)
    else (parseNatNum (c :: rest)).map fun p => (Json.num (p.1 : Int), p.2)

/-- Python `dict` insertion: an existing key keeps its position and takes
the new value, a fresh key is appended. -/
def insertKey : List (List Char × Json) → List Char → Json → List (List Char × Json)
  | [], k, v => [(k, v)]
  | (k', v') :: rest, k, v =>
    if k' = k then (k, v) :: rest else (k', v') :: insertKey rest k v

mutual
def parseValue : Nat → List Char → Option (Json × List Char)
  | 0, _ => none
  | fuel + 1, s =>
    match skipWs s with
    | [] => none
    | c :: rest =>
      if c = 'n' then
        match rest with
        | 'u' :: 'l' :: 'l' :: r => some (.null, r)
        | _ => none
      else if c = 't' then
        match rest with
        | 'r' :: 'u' :: 'e' :: r => some (.bool true, r)
        | _ => none
      else if c = 'f' then
        match rest with
        | 'a' :: 'l' :: 's' :: 'e' :: r => some (.bool false, r)
        | _ => none
      else if c = quoteChar then
        (parseStr (rest.length + 1) rest).map fun p => (Json.str p.1, p.2)
      else if c = '[' then
        match skipWs rest with
        | ']' :: r => some (.arr [], r)
        | r2 => (parseElems fuel r2).map fun p => (Json.arr p.1, p.2)
      else if c = lbraceChar then
        match skipWs rest with
        | r2 =>
          if r2.headD ' ' = rbraceChar then some (.obj [], r2.tail)
          else (parseMembers fuel [] r2).map fun p => (Json.obj p.1, p.2)
      else parseNumber (c :: rest)

def parseElems : Nat → List Char → Option (List Json × List Char)
  | 0, _ => none
  | fuel + 1, s =>
    match parseValue fuel s with
    | none => none
    | some (v, r) =>
      match skipWs r with
      | ',' :: r2 => (parseElems fuel r2).map fun p => (v :: p.1, p.2)
      | ']' :: r2 => some ([v], r2)
      | _ => none

def parseMembers : Nat → List (List Char × Json) → List Char →
    Option (List (List Char × Json) × List Char)
  | 0, _, _ => none
  | fuel + 1, acc, s =>
    match skipWs s with
    | c :: r =>
      if c = quoteChar then
        match parseStr (r.length + 1) r with
        | none => none
        | some (k, r1) =>
          match skipWs r1 with
          | ':' :: r2 =>
            match parseValue fuel r2 with
            | none => none
            | some (v, r3) =>
              match skipWs r3 with
              | ',' :: r4 => parseMembers fuel (insertKey acc k v) r4
              | c2 :: r4 =>
                if c2 = rbraceChar then some (insertKey acc k v, r4) else none
              | _ => none
          | _ => none
      else none
    | [] => none
end

/-- Python `json.loads`: parse one value, tolerate surrounding whitespace,
reject trailing data. -/
def loads (s : List Char) : Option Json :=
  match parseValue (s.length + 1) s with
  | none => none
  | some (v, rest) => if skipWs rest = [] then some v else none

/-- Python `json.dumps` with its default separators. -/
def dumps (v : Json) : List Char := dumpsVal v

/-! ## Validity and fuel accounting for the codec

`jvalid` says every object in the value has pairwise-distinct keys — true
of every value `loads` can produce (Python dict assignment collapses
duplicates).  `jfuel` bounds the recursion fuel `parseValue` needs to
parse the serialized form of a value. -/

def hasKey (k : List Char) : List (List Char × Json) → Bool
  | [] => false
  | (k', _) :: rest => k' = k || hasKey k rest

mutual
def jvalid : Json → Bool
  | .arr xs => listValid xs
  | .obj kvs => objValid kvs
  | _ => true

def listValid : List Json → Bool
  | [] => true
  | x :: xs => jvalid x && listValid xs

def objValid : List (List Char × Json) → Bool
  | [] => true
  | (k, v) :: rest => !hasKey k rest && jvalid v && objValid rest
end

mutual
def jfuel : Json → Nat
  | .arr (x :: xs) => 1 + elemsFuel (x :: xs)
  | .obj (kv :: kvs) => 1 + membersFuel (kv :: kvs)
  | _ => 1

def elemsFuel : List Json → Nat
  | [] => 0
  | x :: xs => 1 + max (jfuel x) (elemsFuel xs)

def membersFuel : List (List Char × Json) → Nat
  | [] => 0
  | (_, v) :: kvs => 1 + max (jfuel v) (membersFuel kvs)
end

/-- `foldl` of Python dict insertion, the shape `parseMembers` computes. -/
def foldIns (acc : List (List Char × Json)) (kvs : List (List Char × Json)) :
    List (List Char × Json) :=
  kvs.foldl (fun a kv => insertKey a kv.1 kv.2) acc

/-! ## Python value helpers

Semantics of the Python idioms the stages use on decoded JSON values. -/

/-- Python truthiness of a decoded JSON value (`if not x`). -/
def jfalsy : Json → Bool
  | .null => true
  | .bool b => !b
  | .num n => n = 0
  | .str s => s.isEmpty
  | .arr xs => xs.isEmpty
  | .obj kvs => kvs.isEmpty

def isObj : Json → Bool
  | .obj _ => true
  | _ => false

def lookupKey : List (List Char × Json) → List Char → Option Json
  | [], _ => none
  | (k', v) :: rest, k => if k' = k then some v else lookupKey rest k

/-- `d[k]` presence: `none` iff the key is absent (callers must have
checked that `v` is an object — `.get` on anything else raises). -/
def pyGetRaw (v : Json) (k : String) : Option Json :=
  match v with
  | .obj kvs => lookupKey kvs k.toList
  | _ => none

/-- `d.get(k)` compared with `is None`: absent key and stored JSON `null`
both read back as Python `None`. -/
def isNoneValue : Option Json → Bool
  | none => true
  | some .null => true
  | some _ => false

/-- `resp.get("data", {})`: the default applies only when the key is
absent; a stored `null` comes back as Python `None` (modelled `.null`). -/
def dataField (resp : Json) : Json :=
  match pyGetRaw resp "data" with
  | none => Json.obj []
  | some d => d

/-- `resp.get("status") == "success"` (callers check `isObj` first). -/
def statusSuccess (resp : Json) : Bool :=
  match pyGetRaw resp "status" with
  | some (.str s) => s = "success".toList
  | _ => false

/-! ## Broker actions

One consume-loop iteration is modelled as a pure function returning the
successor loop state and the trace of broker-visible effects.  Log-sink
publishes are recorded as `log level` (the formatted message text is
elided); backoff and idle sleeps are recorded in milliseconds. -/

inductive BrokerAction where
  | queueDeclare (q : String)
  | publish (q : String) (body : List Char)
  | ack (tag : Nat)
  | nack (tag : Nat) (requeue : Bool)
  | sleepMs (ms : Nat)
  | closeConnection
  | log (level : String)
deriving DecidableEq, Repr

/-- Outcome of a `basic_publish` call, matching the `except` arms wrapped
around the output publish in `Message_Processor.py` / `TTS_API_Manager.py`. -/
inductive PubOutcome where
  | ok
  | amqpConnError
  | connReset
  | otherExn
deriving DecidableEq, Repr

/-- Result of running a stage's `process_message`: returned `True`
(ack), returned `False` (nack with requeue), or raised out of the
function into the consume loop's generic `except` arm. -/
inductive ProcResult where
  | ok
  | requeue
  | raised
deriving DecidableEq, Repr

def publishesTo (q : String) (acts : List BrokerAction) : List (List Char) :=
  acts.filterMap fun a =>
    match a with
    | .publish q' b => if q' = q then some b else none
    | _ => none

def isAckNackFor (tag : Nat) : BrokerAction → Bool
  | .ack t => t = tag
  | .nack t _ => t = tag
  | _ => false

def ackNackCount (tag : Nat) (acts : List BrokerAction) : Nat :=
  (acts.filter (isAckNackFor tag)).length

/-! ## Relay stage: `Message_Processor.py` (`MessageProcessor`) -/

namespace MessageProcessor

/-- `MessageProcessor.process_message` (src/Message_Processor.py:46-111).

The channel interactions are parameterised by the exception behaviour of
the broker calls: `quarantineOk` — whether the quarantine-queue declare +
publish completes (its `except` arm returns `False`); `passiveOk` —
whether the passive declare of the output queue succeeds (otherwise the
queue is recreated); `pub` — the outcome of the output `basic_publish`.
Returns the `bool` result together with the action trace. -/
def process_message (quarantineOk passiveOk : Bool) (pub : PubOutcome)
    (input_queue output_queue : String) (body : List Char) :
    Bool × List BrokerAction :=
  match loads body with
  | none =>
    let malformed_queue := input_queue ++ "_malformedjson"
    if quarantineOk then
      (true, [.log "WARNING", .queueDeclare malformed_queue,
              .publish malformed_queue body, .log "INFO"])
    else
      (false, [.log "WARNING", .log "ERROR"])
  | some data =>
    let declActs : List BrokerAction :=
      if passiveOk then [.queueDeclare output_queue]
      else [.queueDeclare output_queue, .log "INFO"]
    match pub with
    | .ok =>
      (true, [.log "INFO"] ++ declActs ++
        [.publish output_queue (dumps data), .log "INFO"])
    | .amqpConnError => (false, [.log "INFO"] ++ declActs ++ [.log "ERROR"])
    | .connReset => (false, [.log "INFO"] ++ declActs ++ [.log "ERROR"])
    | .otherExn => (false, [.log "INFO"] ++ declActs ++ [.log "ERROR"])

/-- What one iteration of `consume_messages` observes: either `basic_get`
returned a message (with the exception environment its processing will
meet), or the queue was empty, or one of the `except` arms fired.  An
exception event stands for the whole iteration; a failure while still
disconnected means no reconnect happened first. -/
inductive Event where
  | deliver (tag : Nat) (body : List Char)
      (quarantineOk passiveOk : Bool) (pub : PubOutcome)
  | empty
  | chanClosed (inputQueueMissing : Bool)
  | amqpDown
  | netReset
  | unexpected

structure LoopState where
  retryDelay : Nat
  connected : Bool
  queueEmptyLogged : Bool
deriving DecidableEq, Repr

/-- One iteration of `MessageProcessor.consume_messages`
(src/Message_Processor.py:113-195): reconnect if needed, `basic_get`,
ack/nack on the `process_message` result, backoff on connectivity
errors, fixed 1-second delay on unexpected errors, and a trailing
0.1-second sleep on every iteration. -/
def consume_step (input_queue output_queue : String)
    (st : LoopState) (ev : Event) : LoopState × List BrokerAction :=
  let connectActs : List BrokerAction :=
    if st.connected then [] else
      [.queueDeclare input_queue, .queueDeclare output_queue, .queueDeclare "log_queue"]
  match ev with
  | .deliver tag body qOk pOk pub =>
    let r := process_message qOk pOk pub input_queue output_queue body
    (⟨1, true, false⟩,
      connectActs ++ r.2 ++
        (if r.1 then [BrokerAction.ack tag] else [BrokerAction.nack tag true]) ++
        [.sleepMs 100])
  | .empty =>
    (⟨1, true, true⟩,
      connectActs ++ (if st.queueEmptyLogged then [] else [BrokerAction.log "INFO"]) ++
        [.sleepMs 100])
  | .chanClosed missing =>
    (⟨st.retryDelay, true, st.queueEmptyLogged⟩,
      (if missing then [BrokerAction.log "ERROR", .queueDeclare input_queue]
       else [BrokerAction.log "ERROR"]) ++ [.sleepMs 100])
  | .amqpDown =>
    (⟨min (st.retryDelay * 2) 60, false, st.queueEmptyLogged⟩,
      [BrokerAction.log "ERROR"] ++
        (if st.connected then [BrokerAction.closeConnection] else []) ++
        [.log "ERROR", .sleepMs (st.retryDelay * 1000), .sleepMs 100])
  | .netReset =>
    (⟨min (st.retryDelay * 2) 60, false, st.queueEmptyLogged⟩,
      (if st.connected then [BrokerAction.closeConnection] else []) ++
        [.log "ERROR", .sleepMs (st.retryDelay * 1000), .sleepMs 100])
  | .unexpected =>
    (⟨st.retryDelay, false, st.queueEmptyLogged⟩,
      [BrokerAction.log "ERROR"] ++
        (if st.connected then [BrokerAction.closeConnection] else []) ++
        [.sleepMs 1000, .sleepMs 100])

/-- Iterated connectivity failures (`AMQPConnectionError` on every
iteration), used to trace the backoff schedule. -/
def failStreak (input_queue output_queue : String) (st : LoopState) : Nat → LoopState
  | 0 => st
  | k + 1 =>
    (consume_step input_queue output_queue
      (failStreak input_queue output_queue st k) .amqpDown).1

end MessageProcessor

/-! ## Recognition stage: `ASR_API_Manager.py` (`ASRMessageProcessor`) -/

namespace ASRMessageProcessor

/-- `ASRMessageProcessor.process_message` (src/ASR_API_Manager.py:77-126).

`api` is the outcome of `asr_inference`: `none` for the timeout / HTTP
error / network error arms (each returns `None`), `some resp` for a 2xx
response with JSON body `resp`.  `pubOk` is whether the output
`basic_publish` completes.  A non-falsy non-dict response makes
`.get("status")` raise `AttributeError`, which escapes `process_message`
(`.raised`); likewise a non-dict `data` field. -/
def process_message (api : Option Json) (pubOk : Bool) (output_queue : String) :
    ProcResult × List BrokerAction :=
  match api with
  | none => (.requeue, [.log "INFO", .log "ASR_INFERENCE", .log "ERROR"])
  | some resp =>
    if jfalsy resp then
      (.requeue, [.log "INFO", .log "ASR_INFERENCE", .log "ERROR"])
    else if !isObj resp then
      (.raised, [.log "INFO", .log "ASR_INFERENCE"])
    else if !statusSuccess resp then
      (.requeue, [.log "INFO", .log "ASR_INFERENCE", .log "ERROR"])
    else if !isObj (dataField resp) then
      (.raised, [.log "INFO", .log "ASR_INFERENCE"])
    else
      match pyGetRaw (dataField resp) "recognized_text" with
      | none => (.requeue, [.log "INFO", .log "ASR_INFERENCE", .log "ERROR"])
      | some .null => (.requeue, [.log "INFO", .log "ASR_INFERENCE", .log "ERROR"])
      | some rt =>
        if pubOk then
          (.ok, [.log "INFO", .log "ASR_INFERENCE",
                 .publish output_queue (dumps (.obj [("recognized_text".toList, rt)])),
                 .log "INFO"])
        else
          (.requeue, [.log "INFO", .log "ASR_INFERENCE", .log "ERROR"])

inductive Event where
  | deliver (tag : Nat) (body : List Char) (api : Option Json) (pubOk : Bool)
  | empty
  | amqpDown
  | unexpected

structure LoopState where
  retryDelay : Nat
  connected : Bool
deriving DecidableEq, Repr

/-- One iteration of `ASRMessageProcessor.consume_messages`
(src/ASR_API_Manager.py:128-172): `retry_delay` is reset to 1 inside the
reconnect block; an exception escaping `process_message` lands in the
generic `except` arm (log, close, 5-second sleep); connectivity errors
sleep `retry_delay` then double it up to 60. -/
def consume_step (input_queue output_queue : String)
    (st : LoopState) (ev : Event) : LoopState × List BrokerAction :=
  let connectActs : List BrokerAction :=
    if st.connected then [] else
      [.queueDeclare input_queue, .queueDeclare output_queue,
       .queueDeclare "log_queue", .log "INFO"]
  let d0 := if st.connected then st.retryDelay else 1
  match ev with
  | .deliver tag _body api pubOk =>
    let r := process_message api pubOk output_queue
    match r.1 with
    | .ok => (⟨d0, true⟩, connectActs ++ r.2 ++ [.ack tag])
    | .requeue => (⟨d0, true⟩, connectActs ++ r.2 ++ [.nack tag true])
    | .raised =>
      (⟨d0, false⟩,
        connectActs ++ r.2 ++ [.log "ERROR", .closeConnection, .sleepMs 5000])
  | .empty => (⟨d0, true⟩, connectActs ++ [.sleepMs 1000])
  | .amqpDown =>
    (⟨min (st.retryDelay * 2) 60, false⟩,
      [BrokerAction.log "ERROR"] ++
        (if st.connected then [BrokerAction.closeConnection] else []) ++
        [.sleepMs (st.retryDelay * 1000)])
  | .unexpected =>
    (⟨st.retryDelay, false⟩,
      [BrokerAction.log "ERROR"] ++
        (if st.connected then [BrokerAction.closeConnection] else []) ++
        [.sleepMs 5000])

def failStreak (input_queue output_queue : String) (st : LoopState) : Nat → LoopState
  | 0 => st
  | k + 1 =>
    (consume_step input_queue output_queue
      (failStreak input_queue output_queue st k) .amqpDown).1

end ASRMessageProcessor

/-! ## Translation stage: `MT_API_Manager.py` (`MTMessageProcessor`) -/

namespace MTMessageProcessor

/-- `MTMessageProcessor.extract_recognized_text` (src/MT_API_Manager.py:32-55):
a top-level `.get("recognized_text")`; `AttributeError` on a non-dict is
caught and yields `None`; a stored JSON `null` also reads back as `None`. -/
def extract_recognized_text (j : Json) : Option Json :=
  match j with
  | .obj _ =>
    match pyGetRaw j "recognized_text" with
    | some .null => none
    | r => r
  | _ => none

/-- `MTMessageProcessor.process_message` (src/MT_API_Manager.py:112-154).

`api` is the outcome of `translate_text` (`none` for timeout / HTTP /
network errors).  The whole body sits in a `try` whose `except` returns
`False`, so a non-dict API response (whose `.get` raises) is a requeue,
and a failing output publish (`pubOk = false`) is a requeue. -/
def process_message (api : Option Json) (pubOk : Bool)
    (output_queue : String) (body : List Char) : Bool × List BrokerAction :=
  match loads body with
  | none => (true, [.log "INFO", .log "ERROR"])
  | some j =>
    match extract_recognized_text j with
    | none => (true, [.log "INFO", .log "ERROR"])
    | some t =>
      if jfalsy t then (true, [.log "INFO", .log "ERROR"])
      else
        match api with
        | none => (false, [.log "INFO", .log "TRANSLATION_ERROR", .log "ERROR"])
        | some resp =>
          if jfalsy resp || !isObj resp || !statusSuccess resp then
            (false, [.log "INFO", .log "TRANSLATION_SUCCESS", .log "ERROR"])
          else if pubOk then
            (true, [.log "INFO", .log "TRANSLATION_SUCCESS",
                    .publish output_queue (dumps resp), .log "INFO"])
          else
            (false, [.log "INFO", .log "TRANSLATION_SUCCESS", .log "ERROR"])

inductive Event where
  | deliver (tag : Nat) (body : List Char) (api : Option Json) (pubOk : Bool)
  | empty
  | amqpDown
  | unexpected

structure LoopState where
  retryDelay : Nat
  connected : Bool
deriving DecidableEq, Repr

/-- One iteration of `MTMessageProcessor.consume_messages`
(src/MT_API_Manager.py:156-194): same shell as the recognition stage —
reset `retry_delay` on reconnect, exponential backoff on connection
errors, 5-second fixed sleep in the generic `except` arm. -/
def consume_step (input_queue output_queue : String)
    (st : LoopState) (ev : Event) : LoopState × List BrokerAction :=
  let connectActs : List BrokerAction :=
    if st.connected then [] else
      [.queueDeclare input_queue, .queueDeclare output_queue, .queueDeclare "log_queue"]
  let d0 := if st.connected then st.retryDelay else 1
  match ev with
  | .deliver tag body api pubOk =>
    let r := process_message api pubOk output_queue body
    (⟨d0, true⟩,
      connectActs ++ r.2 ++
        (if r.1 then [BrokerAction.ack tag] else [BrokerAction.nack tag true]))
  | .empty => (⟨d0, true⟩, connectActs ++ [.sleepMs 1000])
  | .amqpDown =>
    (⟨min (st.retryDelay * 2) 60, false⟩,
      [BrokerAction.log "ERROR"] ++
        (if st.connected then [BrokerAction.closeConnection] else []) ++
        [.sleepMs (st.retryDelay * 1000)])
  | .unexpected =>
    (⟨st.retryDelay, false⟩,
      [BrokerAction.log "ERROR"] ++
        (if st.connected then [BrokerAction.closeConnection] else []) ++
        [.sleepMs 5000])

end MTMessageProcessor

/-! ## Synthesis stage: `TTS_API_Manager.py` (`TTSMessageProcessor`) -/

namespace TTSMessageProcessor

/-- `TTSMessageProcessor.extract_translated_text`
(src/TTS_API_Manager.py:31-57): a string input is re-parsed as JSON;
then `data.output_text` is read with `.get("data", {}).get("output_text")`,
every exception is caught to `None`, and a falsy text yields `None`. -/
def extract_translated_text (tj : Json) : Option Json :=
  let parsed : Option Json :=
    match tj with
    | .str s => loads s
    | v => some v
  match parsed with
  | none => none
  | some v =>
    match v with
    | .obj _ =>
      match dataField v with
      | .obj _ =>
        match pyGetRaw (dataField v) "output_text" with
        | some t => if jfalsy t then none else some t
        | none => none
      | _ => none
    | _ => none

/-- `TTSMessageProcessor.process_message` (src/TTS_API_Manager.py:131-225).

A failed input decode returns `False` (requeue) — unlike the relay stage
there is no quarantine for the input.  `api` is the `tts_inference`
outcome; since a response that passed the status check is a dict, the
malformed-TTS-JSON quarantine arm (lines 167-185) is unreachable and has
no counterpart here.  The output publish mirrors the relay's
passive-declare / publish exception arms, all inside an outer `try`
whose `except` returns `False`. -/
def process_message (api : Option Json) (passiveOk : Bool) (pub : PubOutcome)
    (input_queue output_queue : String) (body : List Char) :
    Bool × List BrokerAction :=
  match loads body with
  | none => (false, [.log "INFO", .log "ERROR"])
  | some tj =>
    match extract_translated_text tj with
    | none => (false, [.log "INFO", .log "ERROR"])
    | some _t =>
      match api with
      | none => (false, [.log "INFO", .log "TTS_ERROR", .log "ERROR"])
      | some resp =>
        if jfalsy resp || !isObj resp || !statusSuccess resp then
          (false, [.log "INFO", .log "TTS_SUCCESS", .log "ERROR"])
        else
          let declActs : List BrokerAction :=
            if passiveOk then [.queueDeclare output_queue]
            else [.queueDeclare output_queue, .log "INFO"]
          match pub with
          | .ok =>
            (true, [.log "INFO", .log "TTS_SUCCESS", .log "INFO"] ++ declActs ++
              [.publish output_queue (dumps resp), .log "INFO"])
          | .amqpConnError =>
            (false, [.log "INFO", .log "TTS_SUCCESS", .log "INFO"] ++ declActs ++ [.log "ERROR"])
          | .connReset =>
            (false, [.log "INFO", .log "TTS_SUCCESS", .log "INFO"] ++ declActs ++ [.log "ERROR"])
          | .otherExn =>
            (false, [.log "INFO", .log "TTS_SUCCESS", .log "INFO"] ++ declActs ++ [.log "ERROR"])

inductive Event where
  | deliver (tag : Nat) (body : List Char) (api : Option Json)
      (passiveOk : Bool) (pub : PubOutcome)
  | empty
  | chanClosed (inputQueueMissing : Bool)
  | amqpDown
  | netReset
  | unexpected

structure LoopState where
  retryDelay : Nat
  connected : Bool
  queueEmptyLogged : Bool
deriving DecidableEq, Repr

/-- One iteration of `TTSMessageProcessor.consume_messages`
(src/TTS_API_Manager.py:227-306): same shell as the relay loop —
`retry_delay` reset at the end of a successful iteration, exponential
backoff on connectivity errors, fixed 1-second sleep in the generic
`except` arm, trailing 0.1-second sleep every iteration. -/
def consume_step (input_queue output_queue : String)
    (st : LoopState) (ev : Event) : LoopState × List BrokerAction :=
  let connectActs : List BrokerAction :=
    if st.connected then [] else
      [.queueDeclare input_queue, .queueDeclare output_queue, .queueDeclare "log_queue"]
  match ev with
  | .deliver tag body api pOk pub =>
    let r := process_message api pOk pub input_queue output_queue body
    (⟨1, true, false⟩,
      connectActs ++ r.2 ++
        (if r.1 then [BrokerAction.ack tag] else [BrokerAction.nack tag true]) ++
        [.sleepMs 100])
  | .empty =>
    (⟨1, true, true⟩,
      connectActs ++ (if st.queueEmptyLogged then [] else [BrokerAction.log "INFO"]) ++
        [.sleepMs 100])
  | .chanClosed missing =>
    (⟨st.retryDelay, true, st.queueEmptyLogged⟩,
      (if missing then [BrokerAction.log "ERROR", .queueDeclare input_queue]
       else [BrokerAction.log "ERROR"]) ++ [.sleepMs 100])
  | .amqpDown =>
    (⟨min (st.retryDelay * 2) 60, false, st.queueEmptyLogged⟩,
      [BrokerAction.log "ERROR"] ++
        (if st.connected then [BrokerAction.closeConnection] else []) ++
        [.log "ERROR", .sleepMs (st.retryDelay * 1000), .sleepMs 100])
  | .netReset =>
    (⟨min (st.retryDelay * 2) 60, false, st.queueEmptyLogged⟩,
      (if st.connected then [BrokerAction.closeConnection] else []) ++
        [.log "ERROR", .sleepMs (st.retryDelay * 1000), .sleepMs 100])
  | .unexpected =>
    (⟨st.retryDelay, false, st.queueEmptyLogged⟩,
      [BrokerAction.log "ERROR"] ++
        (if st.connected then [BrokerAction.closeConnection] else []) ++
        [.sleepMs 1000, .sleepMs 100])

end TTSMessageProcessor

/-! ## Delivery stage: `send.py` -/

namespace Send

/-- Outcome of a `requests` call in `on_message_received`: success, a
`RequestException` (timeouts, HTTP errors, network errors), or any other
exception. -/
inductive ReqOutcome where
  | ok
  | reqExn
  | otherExn
deriving DecidableEq, Repr

/-- `on_message_received` (src/send.py:24-76): ack malformed JSON and
missing/falsy `s3_url`; nack-with-requeue on `RequestException` from the
download or the forward; nack-without-requeue on any other exception
(`data.get` raising `AttributeError` on a non-dict, or a non-request
error from the HTTP calls); ack on success.  The payload is never copied
to any other queue. -/
def on_message_received (tag : Nat) (body : List Char)
    (download upload : ReqOutcome) : List BrokerAction :=
  match loads body with
  | none => [.ack tag]
  | some data =>
    match data with
    | .obj _ =>
      match dataField data with
      | .obj _ =>
        match pyGetRaw (dataField data) "s3_url" with
        | none => [.ack tag]
        | some u =>
          if jfalsy u then [.ack tag]
          else
            match download with
            | .reqExn => [.nack tag true]
            | .otherExn => [.nack tag false]
            | .ok =>
              match upload with
              | .reqExn => [.nack tag true]
              | .otherExn => [.nack tag false]
              | .ok => [.ack tag]
      | _ => [.nack tag false]
    | _ => [.nack tag false]

end Send

/-! ## Backoff schedule -/

/-- The `retry_delay` value after `k` consecutive doublings from its
reset value 1, following `retry_delay = min(retry_delay * 2, 60)`. -/
def delayIter : Nat → Nat
  | 0 => 1
  | k + 1 => min (delayIter k * 2) 60

/-- Continuations that can follow a serialized value without gluing onto
it: end of input, or a separator/closer.  This is what follows every
value inside `dumps` output, and the empty continuation at top level. -/
def boundaryOk : List Char → Bool
  | [] => true
  | c :: _ => c = ',' || c = ']' || c = rbraceChar

/-! # Theorems

## Whitespace and character classification lemmas -/

theorem skipWs_nil : skipWs [] = [] := rfl

theorem skipWs_cons_of_not_ws {c : Char} (h : isWsChar c = false) (s : List Char) :
    skipWs (c :: s) = c :: s := by
  simp [skipWs, h]

theorem skipWs_cons_of_ws {c : Char} (h : isWsChar c = true) (s : List Char) :
    skipWs (c :: s) = skipWs s := by
  simp [skipWs, h]

theorem char_ne_of_toNat_ne {c d : Char} (h : c.toNat ≠ d.toNat) : c ≠ d :=
  fun he => h (he ▸ rfl)

/-- Characters in the printable band used by serialized numbers (`,`,
`-`, digits) are not whitespace and not the first character of any other
`parseValue` branch. -/
theorem plain_head_facts {c : Char} (h1 : 44 ≤ c.toNat) (h2 : c.toNat ≤ 57) :
    isWsChar c = false ∧ c ≠ 'n' ∧ c ≠ 't' ∧ c ≠ 'f' ∧ c ≠ quoteChar ∧
      c ≠ '[' ∧ c ≠ lbraceChar ∧ c ≠ ']' ∧ c ≠ rbraceChar := by
  have e1 : (' ' : Char).toNat = 32 := by decide
  have e2 : tabChar.toNat = 9 := by decide
  have e3 : nlChar.toNat = 10 := by decide
  have e4 : crChar.toNat = 13 := by decide
  have e5 : ('n' : Char).toNat = 110 := by decide
  have e6 : ('t' : Char).toNat = 116 := by decide
  have e7 : ('f' : Char).toNat = 102 := by decide
  have e8 : quoteChar.toNat = 34 := by decide
  have e9 : ('[' : Char).toNat = 91 := by decide
  have e10 : lbraceChar.toNat = 123 := by decide
  have e11 : (']' : Char).toNat = 93 := by decide
  have e12 : rbraceChar.toNat = 125 := by decide
  refine ⟨?_, ?_, ?_, ?_, ?_, ?_, ?_, ?_, ?_⟩
  · simp only [isWsChar, Bool.or_eq_false_iff, decide_eq_false_iff_not]
    exact ⟨⟨⟨char_ne_of_toNat_ne (by omega), char_ne_of_toNat_ne (by omega)⟩,
      char_ne_of_toNat_ne (by omega)⟩, char_ne_of_toNat_ne (by omega)⟩
  · exact char_ne_of_toNat_ne (by omega)
  · exact char_ne_of_toNat_ne (by omega)
  · exact char_ne_of_toNat_ne (by omega)
  · exact char_ne_of_toNat_ne (by omega)
  · exact char_ne_of_toNat_ne (by omega)
  · exact char_ne_of_toNat_ne (by omega)
  · exact char_ne_of_toNat_ne (by omega)
  · exact char_ne_of_toNat_ne (by omega)

/-! ## Decimal rendering lemmas -/

theorem natDigitsAux_fuel : ∀ fuel n, n < fuel → natDigitsAux fuel n = natDigits n := by
  intro fuel
  induction fuel using Nat.strong_induction_on with
  | _ fuel ih =>
    intro n hn
    match fuel, hn with
    | f + 1, hn =>
      by_cases h10 : n < 10
      · simp [natDigitsAux, natDigits, h10]
      · have hd : n / 10 < n := Nat.div_lt_self (by omega) (by omega)
        have e1 : natDigitsAux (f + 1) n =
            natDigitsAux f (n / 10) ++ [Char.ofNat (48 + n % 10)] := by
          simp [natDigitsAux, h10]
        have e2 : natDigits n = natDigitsAux n (n / 10) ++ [Char.ofNat (48 + n % 10)] := by
          simp [natDigits, natDigitsAux, h10]
        rw [e1, e2, ih f (by omega) (n / 10) (by omega), ih n (by omega) (n / 10) hd]

theorem natDigits_eq (n : Nat) :
    natDigits n = if n < 10 then [Char.ofNat (48 + n)]
      else natDigits (n / 10) ++ [Char.ofNat (48 + n % 10)] := by
  by_cases h10 : n < 10
  · simp [natDigits, natDigitsAux, h10]
  · have hd : n / 10 < n := Nat.div_lt_self (by omega) (by omega)
    have e : natDigits n = natDigitsAux n (n / 10) ++ [Char.ofNat (48 + n % 10)] := by
      simp [natDigits, natDigitsAux, h10]
    rw [e, natDigitsAux_fuel n (n / 10) hd]
    simp [h10]

theorem digit_char_toNat {k : Nat} (hk : k < 10) : (Char.ofNat (48 + k)).toNat = 48 + k := by
  interval_cases k <;> decide

theorem natDigits_shape (n : Nat) :
    ∃ d ds, natDigits n = d :: ds ∧ 48 ≤ d.toNat ∧ d.toNat ≤ 57 ∧ (1 ≤ n → d ≠ '0') := by
  induction n using Nat.strong_induction_on with
  | _ n ih =>
    rw [natDigits_eq]
    by_cases h10 : n < 10
    · refine ⟨Char.ofNat (48 + n), [], by simp [h10], ?_, ?_, ?_⟩
      · rw [digit_char_toNat h10]; omega
      · rw [digit_char_toNat h10]; omega
      · intro h1 he
        have : (Char.ofNat (48 + n)).toNat = ('0' : Char).toNat := by rw [he]
        rw [digit_char_toNat h10] at this
        have e0 : ('0' : Char).toNat = 48 := by decide
        omega
    · obtain ⟨d, ds, hds, hlo, hhi, hz⟩ := ih (n / 10) (Nat.div_lt_self (by omega) (by omega))
      refine ⟨d, ds ++ [Char.ofNat (48 + n % 10)], ?_, hlo, hhi, ?_⟩
      · simp [h10, hds]
      · intro _; exact hz (by omega)

theorem natDigits_all_digits (n : Nat) :
    ∀ c ∈ natDigits n, 48 ≤ c.toNat ∧ c.toNat ≤ 57 := by
  induction n using Nat.strong_induction_on with
  | _ n ih =>
    intro c hc
    rw [natDigits_eq] at hc
    by_cases h10 : n < 10
    · simp [h10] at hc
      subst hc
      rw [digit_char_toNat h10]; omega
    · simp only [h10, if_false, List.mem_append, List.mem_singleton] at hc
      rcases hc with hc | hc
      · exact ih (n / 10) (Nat.div_lt_self (by omega) (by omega)) c hc
      · subst hc
        rw [digit_char_toNat (Nat.mod_lt _ (by omega))]
        have := Nat.mod_lt n (show 0 < 10 by omega)
        omega

theorem parseDigitsAux_digits :
    ∀ ds acc rest, (∀ c ∈ ds, isDigitChar c = true) →
      (∀ d dr, rest = d :: dr → isDigitChar d = false) →
      parseDigitsAux acc (ds ++ rest) =
        (List.foldl (fun a c => a * 10 + digitVal c) acc ds, rest) := by
  intro ds
  induction ds with
  | nil =>
    intro acc rest _ hrest
    match rest with
    | [] => rfl
    | d :: dr => simp [parseDigitsAux, hrest d dr rfl]
  | cons c ds ihds =>
    intro acc rest hds hrest
    have hc := hds c (by simp)
    simp only [List.cons_append, parseDigitsAux, hc, if_true, List.foldl_cons]
    exact ihds _ rest (fun x hx => hds x (by simp [hx])) hrest

theorem foldl_natDigits (n : Nat) :
    ∀ acc, List.foldl (fun a c => a * 10 + digitVal c) acc (natDigits n) =
      acc * 10 ^ (natDigits n).length + n := by
  induction n using Nat.strong_induction_on with
  | _ n ih =>
    intro acc
    rw [natDigits_eq]
    by_cases h10 : n < 10
    · simp only [h10, if_true, List.foldl_cons, List.foldl_nil, List.length_singleton,
        pow_one, digitVal, digit_char_toNat h10]
      omega
    · have hd : n / 10 < n := Nat.div_lt_self (by omega) (by omega)
      simp only [h10, if_false, List.foldl_append, List.foldl_cons, List.foldl_nil,
        List.length_append, List.length_singleton]
      rw [ih (n / 10) hd acc]
      have hm : n % 10 < 10 := Nat.mod_lt _ (by omega)
      have hdv : digitVal (Char.ofNat (48 + n % 10)) = n % 10 := by
        simp [digitVal, digit_char_toNat hm]
      rw [hdv, pow_succ]
      have hnd : 10 * (n / 10) + n % 10 = n := Nat.div_add_mod n 10
      calc (acc * 10 ^ (natDigits (n / 10)).length + n / 10) * 10 + n % 10
          = acc * (10 ^ (natDigits (n / 10)).length * 10) + (10 * (n / 10) + n % 10) := by
            ring
        _ = acc * (10 ^ (natDigits (n / 10)).length * 10) + n := by rw [hnd]

theorem natDigits_digitChars (n : Nat) : ∀ c ∈ natDigits n, isDigitChar c = true := by
  intro c hc
  have := natDigits_all_digits n c hc
  simp [isDigitChar]; omega

theorem parseNatNum_natDigits (n : Nat) (rest : List Char)
    (hrest : ∀ d dr, rest = d :: dr → isDigitChar d = false)
    (hf : startsFloat rest = false) :
    parseNatNum (natDigits n ++ rest) = some (n, rest) := by
  obtain ⟨d, ds, hds, hlo, hhi, hz⟩ := natDigits_shape n
  by_cases hn0 : n = 0
  · subst hn0
    have : natDigits 0 = ['0'] := by rw [natDigits_eq]; decide
    rw [this]
    simp only [List.cons_append, List.nil_append, parseNatNum, if_pos rfl, hf, if_false]
    match rest, hrest with
    | [], _ => rfl
    | d :: dr, hrest => simp [hrest d dr rfl]
  · have hd0 : d ≠ '0' := hz (by omega)
    rw [hds, List.cons_append]
    have hdig : isDigitChar d = true := by simp [isDigitChar]; omega
    simp only [parseNatNum, hd0, if_false, hdig, if_true]
    have hall : ∀ c ∈ ds, isDigitChar c = true := by
      intro c hc
      exact natDigits_digitChars n c (by rw [hds]; simp [hc])
    rw [parseDigitsAux_digits ds (digitVal d) rest hall hrest]
    have hfold : List.foldl (fun a c => a * 10 + digitVal c) 0 (natDigits n) = n := by
      have := foldl_natDigits n 0
      simpa using this
    rw [hds] at hfold
    simp only [List.foldl_cons] at hfold
    have : (0 : Nat) * 10 + digitVal d = digitVal d := by omega
    rw [this] at hfold
    simp [hfold, hf]

theorem boundary_facts {rest : List Char} (h : boundaryOk rest = true) :
    (∀ d dr, rest = d :: dr → isDigitChar d = false) ∧ startsFloat rest = false ∧
      (∀ d dr, rest = d :: dr → (44 ≤ d.toNat ∧ d.toNat ≤ 125)) := by
  cases rest with
  | nil =>
    refine ⟨fun d dr hd => (nomatch hd), rfl, fun d dr hd => (nomatch hd)⟩
  | cons c cr =>
    simp only [boundaryOk, Bool.or_eq_true, decide_eq_true_eq] at h
    have ec : c.toNat = 44 ∨ c.toNat = 93 ∨ c.toNat = 125 := by
      rcases h with (h | h) | h <;> subst h <;> simp [rbraceChar]
    refine ⟨fun d dr hd => ?_, ?_, fun d dr hd => ?_⟩
    · cases hd
      simp only [isDigitChar, Bool.and_eq_false_iff, decide_eq_false_iff_not]
      omega
    · simp only [startsFloat, Bool.or_eq_false_iff, decide_eq_false_iff_not]
      have e1 : ('.' : Char).toNat = 46 := by decide
      have e2 : ('e' : Char).toNat = 101 := by decide
      have e3 : ('E' : Char).toNat = 69 := by decide
      exact ⟨⟨char_ne_of_toNat_ne (by omega), char_ne_of_toNat_ne (by omega)⟩,
        char_ne_of_toNat_ne (by omega)⟩
    · cases hd
      omega

theorem parseNumber_intDigits (m : Int) (rest : List Char) (hb : boundaryOk rest = true) :
    parseNumber (intDigits m ++ rest) = some (.num m, rest) := by
  obtain ⟨hnd, hsf, _⟩ := boundary_facts hb
  by_cases hm : m < 0
  · simp only [intDigits, hm, if_true, List.cons_append]
    simp only [parseNumber, if_true]
    rw [parseNatNum_natDigits m.natAbs rest hnd hsf]
    simp only [Option.map_some']
    have : (-(m.natAbs : Int)) = m := by omega
    rw [this]
  · simp only [intDigits, hm, if_false]
    obtain ⟨d, ds, hds, hlo, hhi, _⟩ := natDigits_shape m.natAbs
    rw [hds, List.cons_append]
    have hdm : d ≠ '-' := by
      have : ('-' : Char).toNat = 45 := by decide
      exact char_ne_of_toNat_ne (by omega)
    simp only [parseNumber, hdm, if_false]
    rw [← List.cons_append, ← hds, parseNatNum_natDigits m.natAbs rest hnd hsf]
    simp only [Option.map_some']
    have : ((m.natAbs : Nat) : Int) = m := by omega
    rw [this]

theorem parseValue_num (fuel : Nat) (m : Int) (rest : List Char)
    (hb : boundaryOk rest = true) :
    parseValue (fuel + 1) (intDigits m ++ rest) = some (.num m, rest) := by
  have hhead : ∃ c cr, intDigits m ++ rest = c :: cr ∧ 44 ≤ c.toNat ∧ c.toNat ≤ 57 := by
    by_cases hm : m < 0
    · refine ⟨'-', natDigits m.natAbs ++ rest, by simp [intDigits, hm], by decide, by decide⟩
    · obtain ⟨d, ds, hds, hlo, hhi, _⟩ := natDigits_shape m.natAbs
      exact ⟨d, ds ++ rest, by simp [intDigits, hm, hds], by omega, hhi⟩
  obtain ⟨c, cr, hcons, hclo, hchi⟩ := hhead
  obtain ⟨hws, hn, ht, hf, hq, hlb, hob, _, _⟩ := plain_head_facts hclo hchi
  rw [hcons]
  simp only [parseValue, skipWs_cons_of_not_ws hws, hn, ht, hf, hq, hlb, hob,
    if_false]
  rw [← hcons, parseNumber_intDigits m rest hb]

/-! ## String escaping roundtrip -/

theorem hexVal_hexDigitChar {k : Nat} (hk : k < 16) : hexVal (hexDigitChar k) = some k := by
  interval_cases k <;> decide

theorem escapeChar_length_pos (c : Char) : 1 ≤ (escapeChar c).length := by
  simp only [escapeChar]
  split_ifs <;> simp

theorem parseStr_escape : ∀ s fuel rest, (escapeStr s).length < fuel →
    parseStr fuel (escapeStr s ++ quoteChar :: rest) = some (s, rest) := by
  intro s
  induction s with
  | nil =>
    intro fuel rest hf
    obtain ⟨f, rfl⟩ : ∃ f, fuel = f + 1 := ⟨fuel - 1, by omega⟩
    simp only [escapeStr, List.nil_append, parseStr, if_true]
  | cons c s ihs =>
    intro fuel rest hf
    have hlen : (escapeStr (c :: s)).length = (escapeChar c).length + (escapeStr s).length := by
      simp [escapeStr]
    have hcl := escapeChar_length_pos c
    obtain ⟨f, rfl⟩ : ∃ f, fuel = f + 1 := ⟨fuel - 1, by omega⟩
    have ihf : (escapeStr s).length < f := by rw [hlen] at hf; omega
    have ih := ihs f rest ihf
    show parseStr (f + 1) ((escapeChar c ++ escapeStr s) ++ quoteChar :: rest)
      = some (c :: s, rest)
    rw [List.append_assoc]
    by_cases h1 : c = quoteChar
    · subst h1
      have he : escapeChar quoteChar = [backslashChar, quoteChar] := by decide
      rw [he]
      simp only [List.cons_append, List.nil_append]
      have hstep : parseStr (f + 1) (backslashChar :: quoteChar :: (escapeStr s ++ quoteChar :: rest))
          = (parseStr f (escapeStr s ++ quoteChar :: rest)).map
              fun p => (quoteChar :: p.1, p.2) := rfl
      rw [hstep, ih]
      rfl
    · by_cases h2 : c = backslashChar
      · subst h2
        have he : escapeChar backslashChar = [backslashChar, backslashChar] := by decide
        rw [he]
        simp only [List.cons_append, List.nil_append]
        have hstep : parseStr (f + 1)
              (backslashChar :: backslashChar :: (escapeStr s ++ quoteChar :: rest))
            = (parseStr f (escapeStr s ++ quoteChar :: rest)).map
                fun p => (backslashChar :: p.1, p.2) := rfl
        rw [hstep, ih]
        rfl
      · by_cases h3 : c = nlChar
        · subst h3
          have he : escapeChar nlChar = [backslashChar, 'n'] := by decide
          rw [he]
          simp only [List.cons_append, List.nil_append]
          have hstep : parseStr (f + 1) (backslashChar :: 'n' :: (escapeStr s ++ quoteChar :: rest))
              = (parseStr f (escapeStr s ++ quoteChar :: rest)).map
                  fun p => (nlChar :: p.1, p.2) := rfl
          rw [hstep, ih]
          rfl
        · by_cases h4 : c = tabChar
          · subst h4
            have he : escapeChar tabChar = [backslashChar, 't'] := by decide
            rw [he]
            simp only [List.cons_append, List.nil_append]
            have hstep : parseStr (f + 1) (backslashChar :: 't' :: (escapeStr s ++ quoteChar :: rest))
                = (parseStr f (escapeStr s ++ quoteChar :: rest)).map
                    fun p => (tabChar :: p.1, p.2) := rfl
            rw [hstep, ih]
            rfl
          · by_cases h5 : c = crChar
            · subst h5
              have he : escapeChar crChar = [backslashChar, 'r'] := by decide
              rw [he]
              simp only [List.cons_append, List.nil_append]
              have hstep : parseStr (f + 1)
                    (backslashChar :: 'r' :: (escapeStr s ++ quoteChar :: rest))
                  = (parseStr f (escapeStr s ++ quoteChar :: rest)).map
                      fun p => (crChar :: p.1, p.2) := rfl
              rw [hstep, ih]
              rfl
            · by_cases h6 : c = bsChar
              · subst h6
                have he : escapeChar bsChar = [backslashChar, 'b'] := by decide
                rw [he]
                simp only [List.cons_append, List.nil_append]
                have hstep : parseStr (f + 1)
                      (backslashChar :: 'b' :: (escapeStr s ++ quoteChar :: rest))
                    = (parseStr f (escapeStr s ++ quoteChar :: rest)).map
                        fun p => (bsChar :: p.1, p.2) := rfl
                rw [hstep, ih]
                rfl
              · by_cases h7 : c = ffChar
                · subst h7
                  have he : escapeChar ffChar = [backslashChar, 'f'] := by decide
                  rw [he]
                  simp only [List.cons_append, List.nil_append]
                  have hstep : parseStr (f + 1)
                        (backslashChar :: 'f' :: (escapeStr s ++ quoteChar :: rest))
                      = (parseStr f (escapeStr s ++ quoteChar :: rest)).map
                          fun p => (ffChar :: p.1, p.2) := rfl
                  rw [hstep, ih]
                  rfl
                · by_cases h8 : c.toNat < 32
                  · have he : escapeChar c = [backslashChar, 'u', '0', '0',
                        hexDigitChar (c.toNat / 16), hexDigitChar (c.toNat % 16)] := by
                      simp only [escapeChar, h1, h2, h3, h4, h5, h6, h7, h8,
                        if_false, if_true]
                    rw [he]
                    simp only [List.cons_append, List.nil_append]
                    have dq : ¬(backslashChar = quoteChar) := by decide
                    have du1 : ¬(('u' : Char) = quoteChar) := by decide
                    have du2 : ¬(('u' : Char) = backslashChar) := by decide
                    have du3 : ¬(('u' : Char) = '/') := by decide
                    have du4 : ¬(('u' : Char) = 'n') := by decide
                    have du5 : ¬(('u' : Char) = 't') := by decide
                    have du6 : ¬(('u' : Char) = 'r') := by decide
                    have du7 : ¬(('u' : Char) = 'b') := by decide
                    have du8 : ¬(('u' : Char) = 'f') := by decide
                    have hv0 : hexVal '0' = some 0 := by decide
                    have hvA : hexVal (hexDigitChar (c.toNat / 16)) = some (c.toNat / 16) :=
                      hexVal_hexDigitChar (by omega)
                    have hvB : hexVal (hexDigitChar (c.toNat % 16)) = some (c.toNat % 16) :=
                      hexVal_hexDigitChar (Nat.mod_lt _ (by omega))
                    simp only [parseStr, dq, du1, du2, du3, du4, du5, du6, du7, du8,
                      if_false, if_true, hv0, hvA, hvB]
                    rw [ih]
                    have harith : ((0 * 16 + 0) * 16 + c.toNat / 16) * 16 + c.toNat % 16
                        = c.toNat := by omega
                    rw [harith, Char.ofNat_toNat]
                    rfl
                  · have he : escapeChar c = [c] := by
                      simp only [escapeChar, h1, h2, h3, h4, h5, h6, h7, h8, if_false]
                    rw [he]
                    simp only [List.cons_append, List.nil_append]
                    simp only [parseStr, h1, h2, h8, if_false]
                    rw [ih]
                    rfl

/-! ## Dict insertion lemmas -/

theorem hasKey_insertKey (l : List (List Char × Json)) (k : List Char) (v : Json)
    (a : List Char) : hasKey a (insertKey l k v) = (hasKey a l || decide (k = a)) := by
  induction l with
  | nil => simp [insertKey, hasKey]
  | cons kv rest ihl =>
    obtain ⟨k', v'⟩ := kv
    by_cases hk : k' = k
    · subst hk
      simp only [insertKey, if_true, hasKey]
      by_cases ha : k' = a <;> simp [ha]
    · simp only [insertKey, hk, if_false, hasKey, ihl]
      by_cases ha : k' = a <;> simp [ha, Bool.or_assoc]

theorem objValid_insertKey {acc : List (List Char × Json)} {k : List Char} {v : Json}
    (hacc : objValid acc = true) (hv : jvalid v = true) :
    objValid (insertKey acc k v) = true := by
  induction acc with
  | nil => simp [insertKey, objValid, hasKey, hv]
  | cons kv rest ihl =>
    obtain ⟨k', v'⟩ := kv
    simp only [objValid, Bool.and_eq_true, Bool.not_eq_true'] at hacc
    obtain ⟨⟨hnk, hv'⟩, hrest⟩ := hacc
    by_cases hk : k' = k
    · subst hk
      simp only [insertKey, if_true, objValid, Bool.and_eq_true, Bool.not_eq_true']
      exact ⟨⟨hnk, hv⟩, hrest⟩
    · simp only [insertKey, hk, if_false, objValid, Bool.and_eq_true, Bool.not_eq_true']
      refine ⟨⟨?_, hv'⟩, ihl hrest⟩
      rw [hasKey_insertKey, hnk]
      simp only [Bool.false_or, decide_eq_false_iff_not]
      exact fun he => hk he.symm

theorem insertKey_append_of_fresh {acc : List (List Char × Json)} {k : List Char} {v : Json}
    (h : hasKey k acc = false) : insertKey acc k v = acc ++ [(k, v)] := by
  induction acc with
  | nil => rfl
  | cons kv rest ihl =>
    obtain ⟨k', v'⟩ := kv
    simp only [hasKey, Bool.or_eq_false_iff, decide_eq_false_iff_not] at h
    simp only [insertKey, h.1, if_false, List.cons_append]
    rw [ihl h.2]

theorem hasKey_false_forall {k : List Char} {l : List (List Char × Json)}
    (h : hasKey k l = false) : ∀ kv ∈ l, kv.1 ≠ k := by
  induction l with
  | nil => intro kv hkv; cases hkv
  | cons kv0 rest ihl =>
    intro kv hkv
    simp only [hasKey, Bool.or_eq_false_iff, decide_eq_false_iff_not] at h
    rcases List.mem_cons.mp hkv with rfl | hm
    · exact h.1
    · exact ihl h.2 kv hm

theorem hasKey_append (k : List Char) (a b : List (List Char × Json)) :
    hasKey k (a ++ b) = (hasKey k a || hasKey k b) := by
  induction a with
  | nil => simp [hasKey]
  | cons kv rest ihl =>
    obtain ⟨k', v'⟩ := kv
    simp [hasKey, ihl, Bool.or_assoc]

theorem foldIns_fresh : ∀ kvs acc, objValid kvs = true →
    (∀ kv ∈ kvs, hasKey kv.1 acc = false) → foldIns acc kvs = acc ++ kvs := by
  intro kvs
  induction kvs with
  | nil => intro acc _ _; simp [foldIns]
  | cons kv rest ihl =>
    intro acc hvalid hfresh
    obtain ⟨k, v⟩ := kv
    simp only [objValid, Bool.and_eq_true, Bool.not_eq_true'] at hvalid
    obtain ⟨⟨hnk, _⟩, hrest⟩ := hvalid
    have step : foldIns acc ((k, v) :: rest) = foldIns (insertKey acc k v) rest := rfl
    rw [step, insertKey_append_of_fresh (hfresh (k, v) (by simp))]
    rw [ihl (acc ++ [(k, v)]) hrest ?_]
    · simp
    · intro kv hkv
      rw [hasKey_append]
      have h1 : hasKey kv.1 acc = false := hfresh kv (by simp [hkv])
      have h2 : kv.1 ≠ k := hasKey_false_forall hnk kv hkv
      simp only [h1, hasKey, Bool.false_or, Bool.or_eq_false_iff,
        decide_eq_false_iff_not]
      exact ⟨fun he => h2 he.symm, trivial⟩

/-! ## Fuel positivity and boundary helpers -/

theorem jfuel_pos : ∀ v, 1 ≤ jfuel v := by
  intro v
  match v with
  | .null | .bool _ | .num _ | .str _ => simp [jfuel]
  | .arr [] => simp [jfuel]
  | .arr (x :: xs) => simp [jfuel]
  | .obj [] => simp [jfuel]
  | .obj (kv :: kvs) => simp [jfuel]

theorem boundaryOk_elemsRest (xs : List Json) (rest : List Char) :
    boundaryOk (dumpsElemsRest xs ++ ']' :: rest) = true := by
  cases xs with
  | nil => simp [dumpsElemsRest, boundaryOk]
  | cons y ys => simp [dumpsElemsRest, boundaryOk]

theorem boundaryOk_membersRest (kvs : List (List Char × Json)) (rest : List Char) :
    boundaryOk (dumpsMembersRest kvs ++ rbraceChar :: rest) = true := by
  cases kvs with
  | nil => simp [dumpsMembersRest, boundaryOk]
  | cons kv kvs' => simp [dumpsMembersRest, boundaryOk]

theorem parseValue_cons_ws (fuel : Nat) {c : Char} (t : List Char) (h : isWsChar c = true) :
    parseValue fuel (c :: t) = parseValue fuel t := by
  match fuel with
  | 0 => rfl
  | f + 1 =>
    simp only [parseValue]
    rw [skipWs_cons_of_ws h]

theorem parseElems_cons_ws (fuel : Nat) {c : Char} (t : List Char) (h : isWsChar c = true) :
    parseElems (fuel + 1) (c :: t) = parseElems (fuel + 1) t := by
  simp only [parseElems]
  rw [parseValue_cons_ws fuel t h]

theorem parseMembers_cons_ws (fuel : Nat) (acc : List (List Char × Json)) {c : Char}
    (t : List Char) (h : isWsChar c = true) :
    parseMembers (fuel + 1) acc (c :: t) = parseMembers (fuel + 1) acc t := by
  simp only [parseMembers]
  rw [skipWs_cons_of_ws h]

/-- The serialized form of any value starts with a character that is not
whitespace and is not a closing bracket. -/
theorem dumps_head (v : Json) :
    ∃ c cs, dumpsVal v = c :: cs ∧ isWsChar c = false ∧ c ≠ ']' ∧ c ≠ rbraceChar := by
  match v with
  | .null => exact ⟨'n', _, rfl, by decide, by decide, by decide⟩
  | .bool true => exact ⟨'t', _, rfl, by decide, by decide, by decide⟩
  | .bool false => exact ⟨'f', _, rfl, by decide, by decide, by decide⟩
  | .str s => exact ⟨quoteChar, _, rfl, by decide, by decide, by decide⟩
  | .arr [] => exact ⟨'[', _, rfl, by decide, by decide, by decide⟩
  | .arr (x :: xs) => exact ⟨'[', _, rfl, by decide, by decide, by decide⟩
  | .obj [] => exact ⟨lbraceChar, _, rfl, by decide, by decide, by decide⟩
  | .obj (kv :: kvs) => exact ⟨lbraceChar, _, rfl, by decide, by decide, by decide⟩
  | .num m =>
    have hx : ∃ c cs, intDigits m = c :: cs ∧ 44 ≤ c.toNat ∧ c.toNat ≤ 57 := by
      by_cases hm : m < 0
      · exact ⟨'-', natDigits m.natAbs, by simp [intDigits, hm], by decide, by decide⟩
      · obtain ⟨d, ds, hds, hlo, hhi, _⟩ := natDigits_shape m.natAbs
        exact ⟨d, ds, by simp [intDigits, hm, hds], by omega, hhi⟩
    obtain ⟨c, cs, hcons, hclo, hchi⟩ := hx
    obtain ⟨hws, _, _, _, _, _, _, hrb, hob⟩ := plain_head_facts hclo hchi
    exact ⟨c, cs, by simp [dumpsVal, hcons], hws, hrb, hob⟩

theorem parseValue_arr_branch (f : Nat) (t : List Char) (c : Char) (cs : List Char)
    (ht : t = c :: cs) (hws : isWsChar c = false) (hne : c ≠ ']') :
    parseValue (f + 1) ('[' :: t) = (parseElems f t).map fun p => (Json.arr p.1, p.2) := by
  subst ht
  have base : parseValue (f + 1) ('[' :: c :: cs)
      = (match skipWs (c :: cs) with
         | ']' :: r => some (Json.arr [], r)
         | r2 => (parseElems f r2).map fun p => (Json.arr p.1, p.2)) := rfl
  rw [base, skipWs_cons_of_not_ws hws]
  split
  · rename_i r heq
    injection heq with h1 _
    exact absurd h1 hne
  · rfl

theorem parseValue_obj_branch (f : Nat) (t : List Char) (c : Char) (cs : List Char)
    (ht : t = c :: cs) (hws : isWsChar c = false) (hne : c ≠ rbraceChar) :
    parseValue (f + 1) (lbraceChar :: t)
      = (parseMembers f [] t).map fun p => (Json.obj p.1, p.2) := by
  subst ht
  have base : parseValue (f + 1) (lbraceChar :: c :: cs)
      = (if (skipWs (c :: cs)).headD ' ' = rbraceChar then
           some (Json.obj [], (skipWs (c :: cs)).tail)
         else (parseMembers f [] (skipWs (c :: cs))).map fun p => (Json.obj p.1, p.2)) := rfl
  rw [base, skipWs_cons_of_not_ws hws]
  simp only [List.headD_cons, hne, if_false]

/-- Parsing a serialized valid value consumes exactly the serialized form
and returns the value, for any sufficient fuel and any continuation that
cannot glue onto a number. -/
theorem parse_dumps_spine : ∀ fuel : Nat,
    (∀ v rest, jvalid v = true → jfuel v ≤ fuel → boundaryOk rest = true →
      parseValue fuel (dumpsVal v ++ rest) = some (v, rest)) ∧
    (∀ x xs rest, jvalid x = true → listValid xs = true → elemsFuel (x :: xs) ≤ fuel →
      parseElems fuel (dumpsVal x ++ (dumpsElemsRest xs ++ (']' :: rest)))
        = some (x :: xs, rest)) ∧
    (∀ k v kvs acc rest, jvalid v = true → objValid kvs = true →
      membersFuel ((k, v) :: kvs) ≤ fuel →
      parseMembers fuel acc
          (dumpsMember (k, v) ++ (dumpsMembersRest kvs ++ (rbraceChar :: rest)))
        = some (foldIns (insertKey acc k v) kvs, rest)) := by
  intro fuel
  induction fuel using Nat.strong_induction_on with
  | _ fuel ih =>
    refine ⟨?_, ?_, ?_⟩
    · -- parseValue on dumpsVal
      intro v rest hv hfv hb
      obtain ⟨f, rfl⟩ : ∃ f, fuel = f + 1 := ⟨fuel - 1, by have := jfuel_pos v; omega⟩
      match v with
      | .null => exact rfl
      | .bool true => exact rfl
      | .bool false => exact rfl
      | .num m =>
        show parseValue (f + 1) (intDigits m ++ rest) = some (.num m, rest)
        exact parseValue_num f m rest hb
      | .str s =>
        have e : dumpsVal (.str s) ++ rest = quoteChar :: (escapeStr s ++ quoteChar :: rest) := by
          simp [dumpsVal]
        rw [e]
        have hstep : parseValue (f + 1) (quoteChar :: (escapeStr s ++ quoteChar :: rest))
            = (parseStr ((escapeStr s ++ quoteChar :: rest).length + 1)
                (escapeStr s ++ quoteChar :: rest)).map fun p => (Json.str p.1, p.2) := rfl
        rw [hstep, parseStr_escape s _ rest (by simp [List.length_append]; omega)]
        rfl
      | .arr [] => exact rfl
      | .arr (x :: xs) =>
        have hx : jvalid x = true ∧ listValid xs = true := by
          have : jvalid (Json.arr (x :: xs)) = (jvalid x && listValid xs) := rfl
          rw [this] at hv
          exact ⟨(Bool.and_eq_true _ _).mp hv |>.1, (Bool.and_eq_true _ _).mp hv |>.2⟩
        have hef : elemsFuel (x :: xs) ≤ f := by
          have : jfuel (Json.arr (x :: xs)) = 1 + elemsFuel (x :: xs) := rfl
          omega
        have e : dumpsVal (.arr (x :: xs)) ++ rest
            = '[' :: (dumpsVal x ++ (dumpsElemsRest xs ++ (']' :: rest))) := by
          simp [dumpsVal]
        rw [e]
        obtain ⟨c, cs, hc, hws, hne, _⟩ := dumps_head x
        have ht : dumpsVal x ++ (dumpsElemsRest xs ++ (']' :: rest))
            = c :: (cs ++ (dumpsElemsRest xs ++ (']' :: rest))) := by
          rw [hc]; rfl
        rw [parseValue_arr_branch f _ c _ ht hws hne]
        rw [(ih f (by omega)).2.1 x xs rest hx.1 hx.2 hef]
        rfl
      | .obj [] => exact rfl
      | .obj ((k, w) :: kvs) =>
        have hov : objValid ((k, w) :: kvs) = true := hv
        have hparts : hasKey k kvs = false ∧ jvalid w = true ∧ objValid kvs = true := by
          simp only [objValid, Bool.and_eq_true, Bool.not_eq_true'] at hov
          exact ⟨hov.1.1, hov.1.2, hov.2⟩
        have hmf : membersFuel ((k, w) :: kvs) ≤ f := by
          have : jfuel (Json.obj ((k, w) :: kvs)) = 1 + membersFuel ((k, w) :: kvs) := rfl
          omega
        have e : dumpsVal (.obj ((k, w) :: kvs)) ++ rest
            = lbraceChar ::
                (dumpsMember (k, w) ++ (dumpsMembersRest kvs ++ (rbraceChar :: rest))) := by
          simp [dumpsVal]
        rw [e]
        have ht : dumpsMember (k, w) ++ (dumpsMembersRest kvs ++ (rbraceChar :: rest))
            = quoteChar :: ((escapeStr k ++ [quoteChar, ':', ' ']) ++
                (dumpsVal w ++ (dumpsMembersRest kvs ++ (rbraceChar :: rest)))) := by
          simp [dumpsMember, List.append_assoc]
        rw [parseValue_obj_branch f _ quoteChar _ ht (by decide) (by decide)]
        rw [(ih f (by omega)).2.2 k w kvs [] rest hparts.2.1 hparts.2.2 hmf]
        have hfold : foldIns (insertKey [] k w) kvs = (k, w) :: kvs := by
          have hik : insertKey [] k w = [(k, w)] := rfl
          rw [hik, foldIns_fresh kvs [(k, w)] hparts.2.2 ?_]
          · rfl
          · intro kv hkv
            have hne := hasKey_false_forall hparts.1 kv hkv
            simp only [hasKey, Bool.or_eq_false_iff, decide_eq_false_iff_not]
            exact ⟨fun he => hne he.symm, trivial⟩
        rw [hfold]
        rfl
    · -- parseElems on serialized elements
      intro x xs rest hx hxs hfe
      have he1 : elemsFuel (x :: xs) = 1 + max (jfuel x) (elemsFuel xs) := rfl
      obtain ⟨g, rfl⟩ : ∃ g, fuel = g + 1 := ⟨fuel - 1, by omega⟩
      have hjx : jfuel x ≤ g := by omega
      have hval := (ih g (by omega)).1 x (dumpsElemsRest xs ++ (']' :: rest)) hx hjx
        (boundaryOk_elemsRest xs rest)
      match xs with
      | [] =>
        have hz : dumpsElemsRest ([] : List Json) ++ (']' :: rest) = ']' :: rest := rfl
        rw [hz] at hval ⊢
        have base : parseElems (g + 1) (dumpsVal x ++ (']' :: rest))
            = (match parseValue g (dumpsVal x ++ (']' :: rest)) with
               | none => none
               | some (v, r) =>
                 match skipWs r with
                 | ',' :: r2 => (parseElems g r2).map fun p => (v :: p.1, p.2)
                 | ']' :: r2 => some ([v], r2)
                 | _ => none) := rfl
        rw [base]
        simp only [hval]
        rw [skipWs_cons_of_not_ws (by decide)]
        exact rfl
      | y :: ys =>
        have hz : dumpsElemsRest (y :: ys) ++ (']' :: rest)
            = ',' :: ' ' :: (dumpsVal y ++ (dumpsElemsRest ys ++ (']' :: rest))) := by
          simp [dumpsElemsRest, List.append_assoc]
        rw [hz] at hval ⊢
        have base : parseElems (g + 1)
              (dumpsVal x ++ (',' :: ' ' :: (dumpsVal y ++ (dumpsElemsRest ys ++ (']' :: rest)))))
            = (match parseValue g
                  (dumpsVal x ++
                    (',' :: ' ' :: (dumpsVal y ++ (dumpsElemsRest ys ++ (']' :: rest))))) with
               | none => none
               | some (v, r) =>
                 match skipWs r with
                 | ',' :: r2 => (parseElems g r2).map fun p => (v :: p.1, p.2)
                 | ']' :: r2 => some ([v], r2)
                 | _ => none) := rfl
        rw [base]
        simp only [hval]
        rw [skipWs_cons_of_not_ws (by decide)]
        show (parseElems g (' ' :: (dumpsVal y ++ (dumpsElemsRest ys ++ (']' :: rest))))).map
            (fun p => (x :: p.1, p.2)) = some (x :: y :: ys, rest)
        have he2 : elemsFuel (y :: ys) = 1 + max (jfuel y) (elemsFuel ys) := rfl
        have hey : elemsFuel (y :: ys) ≤ g := by omega
        obtain ⟨g2, rfl⟩ : ∃ g2, g = g2 + 1 := ⟨g - 1, by omega⟩
        have hvy : jvalid y = true ∧ listValid ys = true := by
          have : listValid (y :: ys) = (jvalid y && listValid ys) := rfl
          rw [this] at hxs
          exact ⟨(Bool.and_eq_true _ _).mp hxs |>.1, (Bool.and_eq_true _ _).mp hxs |>.2⟩
        rw [parseElems_cons_ws g2 _ (by decide)]
        rw [(ih (g2 + 1) (by omega)).2.1 y ys rest hvy.1 hvy.2 hey]
        rfl
    · -- parseMembers on serialized members
      intro k v kvs acc rest hkv hkvs hfm
      have hm1 : membersFuel ((k, v) :: kvs) = 1 + max (jfuel v) (membersFuel kvs) := rfl
      obtain ⟨g, rfl⟩ : ∃ g, fuel = g + 1 := ⟨fuel - 1, by omega⟩
      have hjv : jfuel v ≤ g := by omega
      have ht : dumpsMember (k, v) ++ (dumpsMembersRest kvs ++ (rbraceChar :: rest))
          = quoteChar :: (escapeStr k ++
              (quoteChar :: ':' :: ' ' ::
                (dumpsVal v ++ (dumpsMembersRest kvs ++ (rbraceChar :: rest))))) := by
        simp [dumpsMember, List.append_assoc]
      rw [ht]
      have base : parseMembers (g + 1) acc (quoteChar :: (escapeStr k ++
            (quoteChar :: ':' :: ' ' ::
              (dumpsVal v ++ (dumpsMembersRest kvs ++ (rbraceChar :: rest))))))
          = (match parseStr ((escapeStr k ++
                (quoteChar :: ':' :: ' ' ::
                  (dumpsVal v ++ (dumpsMembersRest kvs ++ (rbraceChar :: rest))))).length + 1)
              (escapeStr k ++
                (quoteChar :: ':' :: ' ' ::
                  (dumpsVal v ++ (dumpsMembersRest kvs ++ (rbraceChar :: rest))))) with
             | none => none
             | some (k', r1) =>
               match skipWs r1 with
               | ':' :: r2 =>
                 match parseValue g r2 with
                 | none => none
                 | some (w, r3) =>
                   match skipWs r3 with
                   | ',' :: r4 => parseMembers g (insertKey acc k' w) r4
                   | c2 :: r4 =>
                     if c2 = rbraceChar then some (insertKey acc k' w, r4) else none
                   | _ => none
               | _ => none) := rfl
      rw [base]
      have hstr := parseStr_escape k
        ((escapeStr k ++ (quoteChar :: ':' :: ' ' ::
            (dumpsVal v ++ (dumpsMembersRest kvs ++ (rbraceChar :: rest))))).length + 1)
        (':' :: ' ' :: (dumpsVal v ++ (dumpsMembersRest kvs ++ (rbraceChar :: rest))))
        (by simp [List.length_append]; omega)
      simp only [hstr]
      rw [skipWs_cons_of_not_ws (by decide)]
      have hvv := (ih g (by omega)).1 v (dumpsMembersRest kvs ++ (rbraceChar :: rest)) hkv hjv
        (boundaryOk_membersRest kvs rest)
      show (match parseValue g
              (' ' :: (dumpsVal v ++ (dumpsMembersRest kvs ++ (rbraceChar :: rest)))) with
            | none => none
            | some (w, r3) =>
              match skipWs r3 with
              | ',' :: r4 => parseMembers g (insertKey acc k w) r4
              | c2 :: r4 =>
                if c2 = rbraceChar then some (insertKey acc k w, r4) else none
              | _ => none)
          = some (foldIns (insertKey acc k v) kvs, rest)
      rw [parseValue_cons_ws g _ (by decide)]
      simp only [hvv]
      match kvs, hkvs with
      | [], _ =>
        have hz : dumpsMembersRest ([] : List (List Char × Json)) ++ (rbraceChar :: rest)
            = rbraceChar :: rest := rfl
        rw [hz, skipWs_cons_of_not_ws (by decide)]
        exact rfl
      | (k2, v2) :: kvs2, hkvs =>
        have hz : dumpsMembersRest ((k2, v2) :: kvs2) ++ (rbraceChar :: rest)
            = ',' :: ' ' ::
                (dumpsMember (k2, v2) ++ (dumpsMembersRest kvs2 ++ (rbraceChar :: rest))) := by
          simp [dumpsMembersRest, List.append_assoc]
        rw [hz, skipWs_cons_of_not_ws (by decide)]
        show parseMembers g (insertKey acc k v)
            (' ' :: (dumpsMember (k2, v2) ++ (dumpsMembersRest kvs2 ++ (rbraceChar :: rest))))
          = some (foldIns (insertKey acc k v) ((k2, v2) :: kvs2), rest)
        have hparts2 : jvalid v2 = true ∧ objValid kvs2 = true := by
          simp only [objValid, Bool.and_eq_true, Bool.not_eq_true'] at hkvs
          exact ⟨hkvs.1.2, hkvs.2⟩
        have hm2 : membersFuel ((k2, v2) :: kvs2) = 1 + max (jfuel v2) (membersFuel kvs2) := rfl
        have hmf2 : membersFuel ((k2, v2) :: kvs2) ≤ g := by omega
        obtain ⟨g2, rfl⟩ : ∃ g2, g = g2 + 1 := ⟨g - 1, by omega⟩
        rw [parseMembers_cons_ws g2 _ _ (by decide)]
        rw [(ih (g2 + 1) (by omega)).2.2 k2 v2 kvs2 (insertKey acc k v) rest
          hparts2.1 hparts2.2 hmf2]
        rfl

/-! ## Fuel is bounded by serialized length -/

mutual
theorem jfuel_le_dumps : ∀ v : Json, jfuel v ≤ (dumpsVal v).length
  | .null => by simp [jfuel, dumpsVal]
  | .bool true => by simp [jfuel, dumpsVal]
  | .bool false => by simp [jfuel, dumpsVal]
  | .num m => by
    have h1 : jfuel (Json.num m) = 1 := rfl
    have h2 : dumpsVal (Json.num m) = intDigits m := rfl
    obtain ⟨d, ds, hds, _, _, _⟩ := natDigits_shape m.natAbs
    rw [h1, h2]
    by_cases hm : m < 0 <;> simp [intDigits, hm, hds]
  | .str s => by simp [jfuel, dumpsVal]
  | .arr [] => by simp [jfuel, dumpsVal]
  | .arr (x :: xs) => by
    have h1 : jfuel (Json.arr (x :: xs)) = 1 + elemsFuel (x :: xs) := rfl
    have h2 : (dumpsVal (Json.arr (x :: xs))).length
        = 2 + (dumpsVal x).length + (dumpsElemsRest xs).length := by
      simp [dumpsVal, List.length_append]
      omega
    have h3 := elemsFuel_le_dumps x xs
    omega
  | .obj [] => by simp [jfuel, dumpsVal]
  | .obj ((k, v) :: kvs) => by
    have h1 : jfuel (Json.obj ((k, v) :: kvs)) = 1 + membersFuel ((k, v) :: kvs) := rfl
    have h2 : (dumpsVal (Json.obj ((k, v) :: kvs))).length
        = 2 + (dumpsMember (k, v)).length + (dumpsMembersRest kvs).length := by
      simp [dumpsVal, List.length_append]
      omega
    have h3 := membersFuel_le_dumps k v kvs
    omega
termination_by v => sizeOf v

theorem elemsFuel_le_dumps : ∀ (x : Json) (xs : List Json),
    elemsFuel (x :: xs) ≤ 1 + (dumpsVal x).length + (dumpsElemsRest xs).length
  | x, [] => by
    have h1 : elemsFuel [x] = 1 + max (jfuel x) 0 := rfl
    have h2 := jfuel_le_dumps x
    simp only [h1, Nat.max_zero]
    omega
  | x, y :: ys => by
    have h1 : elemsFuel (x :: y :: ys) = 1 + max (jfuel x) (elemsFuel (y :: ys)) := rfl
    have h2 := jfuel_le_dumps x
    have h3 := elemsFuel_le_dumps y ys
    have h4 : (dumpsElemsRest (y :: ys)).length
        = 2 + (dumpsVal y).length + (dumpsElemsRest ys).length := by
      simp [dumpsElemsRest, List.length_append]
      omega
    have h5 : max (jfuel x) (elemsFuel (y :: ys)) ≤
        (dumpsVal x).length + (dumpsElemsRest (y :: ys)).length := by
      refine Nat.max_le.mpr ⟨by omega, by omega⟩
    omega
termination_by x xs => 1 + sizeOf x + sizeOf xs

theorem membersFuel_le_dumps : ∀ (k : List Char) (v : Json) (kvs : List (List Char × Json)),
    membersFuel ((k, v) :: kvs) ≤ 1 + (dumpsMember (k, v)).length + (dumpsMembersRest kvs).length
  | k, v, [] => by
    have h1 : membersFuel [(k, v)] = 1 + max (jfuel v) 0 := rfl
    have h2 := jfuel_le_dumps v
    have h3 : (dumpsVal v).length ≤ (dumpsMember (k, v)).length := by
      simp [dumpsMember, List.length_append]
      omega
    simp only [h1, Nat.max_zero]
    omega
  | k, v, (k2, v2) :: kvs2 => by
    have h1 : membersFuel ((k, v) :: (k2, v2) :: kvs2)
        = 1 + max (jfuel v) (membersFuel ((k2, v2) :: kvs2)) := rfl
    have h2 := jfuel_le_dumps v
    have h3 : (dumpsVal v).length ≤ (dumpsMember (k, v)).length := by
      simp [dumpsMember, List.length_append]
      omega
    have h4 := membersFuel_le_dumps k2 v2 kvs2
    have h5 : (dumpsMembersRest ((k2, v2) :: kvs2)).length
        = 2 + (dumpsMember (k2, v2)).length + (dumpsMembersRest kvs2).length := by
      simp [dumpsMembersRest, List.length_append]
      omega
    have h6 : max (jfuel v) (membersFuel ((k2, v2) :: kvs2)) ≤
        (dumpsMember (k, v)).length + (dumpsMembersRest ((k2, v2) :: kvs2)).length := by
      refine Nat.max_le.mpr ⟨by omega, by omega⟩
    omega
termination_by k v kvs => 1 + sizeOf v + sizeOf kvs
end

/-- `json.loads` inverts `json.dumps` on values with duplicate-free
object keys. -/
theorem loads_dumps {v : Json} (hv : jvalid v = true) : loads (dumps v) = some v := by
  have hspine := (parse_dumps_spine ((dumpsVal v).length + 1)).1 v [] hv
    (by have := jfuel_le_dumps v; omega) rfl
  rw [List.append_nil] at hspine
  simp only [loads, dumps, hspine, skipWs_nil, if_true]

theorem parseNumber_num {s : List Char} {v : Json} {r : List Char}
    (h : parseNumber s = some (v, r)) : ∃ m, v = Json.num m := by
  match s with
  | [] => cases h
  | c :: rest =>
    simp only [parseNumber] at h
    split_ifs at h
    · rcases Option.map_eq_some'.mp h with ⟨p, _, h2⟩
      injection h2 with ha _
      exact ⟨-(p.1 : Int), ha.symm⟩
    · rcases Option.map_eq_some'.mp h with ⟨p, _, h2⟩
      injection h2 with ha _
      exact ⟨(p.1 : Int), ha.symm⟩

/-- Everything the parser produces has duplicate-free object keys. -/
theorem parse_valid : ∀ fuel : Nat,
    (∀ s v r, parseValue fuel s = some (v, r) → jvalid v = true) ∧
    (∀ s vs r, parseElems fuel s = some (vs, r) → listValid vs = true) ∧
    (∀ acc s kvs r, objValid acc = true → parseMembers fuel acc s = some (kvs, r) →
      objValid kvs = true) := by
  intro fuel
  induction fuel using Nat.strong_induction_on with
  | _ fuel ih =>
    refine ⟨?_, ?_, ?_⟩
    · intro s v r hp
      match fuel, hp with
      | f + 1, hp =>
        simp only [parseValue] at hp
        split at hp
        · cases hp
        · rename_i c rest
          split_ifs at hp with h1 h2 h3 h4 h5 h6 h7
          · split at hp
            · cases hp; exact rfl
            · cases hp
          · split at hp
            · cases hp; exact rfl
            · cases hp
          · split at hp
            · cases hp; exact rfl
            · cases hp
          · rcases Option.map_eq_some'.mp hp with ⟨p, _, h2⟩
            injection h2 with ha _
            rw [← ha]
            exact rfl
          · split at hp
            · cases hp; exact rfl
            · rcases Option.map_eq_some'.mp hp with ⟨p, hp1, h2⟩
              injection h2 with ha _
              rw [← ha]
              exact (ih f (by omega)).2.1 _ p.1 p.2 hp1
          · cases hp; exact rfl
          · rcases Option.map_eq_some'.mp hp with ⟨p, hp1, h2⟩
            injection h2 with ha _
            rw [← ha]
            exact (ih f (by omega)).2.2 [] _ p.1 p.2 rfl hp1
          · obtain ⟨m, rfl⟩ := parseNumber_num hp
            exact rfl
    · intro s vs r hp
      match fuel, hp with
      | f + 1, hp =>
        simp only [parseElems] at hp
        split at hp
        · cases hp
        · rename_i v0 r0 heq
          split at hp
          · rcases Option.map_eq_some'.mp hp with ⟨p, hp1, h2⟩
            injection h2 with ha _
            rw [← ha]
            have hv0 := (ih f (by omega)).1 _ v0 r0 heq
            have hrest := (ih f (by omega)).2.1 _ p.1 p.2 hp1
            show (jvalid v0 && listValid p.1) = true
            rw [hv0, hrest]
            rfl
          · cases hp
            have hv0 := (ih f (by omega)).1 _ v0 r0 heq
            show (jvalid v0 && listValid []) = true
            rw [hv0]
            rfl
          · cases hp
    · intro acc s kvs r hacc hp
      match fuel, hp with
      | f + 1, hp =>
        simp only [parseMembers] at hp
        split at hp
        · rename_i c rest
          split_ifs at hp with h1
          · split at hp
            · cases hp
            · rename_i k' r1 hstr
              split at hp
              · rename_i r2
                split at hp
                · cases hp
                · rename_i w r3 hval
                  have hw := (ih f (by omega)).1 _ w r3 hval
                  split at hp
                  · exact (ih f (by omega)).2.2 (insertKey acc k' w) _ kvs r
                      (objValid_insertKey hacc hw) hp
                  · split_ifs at hp
                    cases hp
                    exact objValid_insertKey hacc hw
                  · cases hp
              · cases hp
        · cases hp

theorem loads_some_valid {s : List Char} {v : Json} (h : loads s = some v) :
    jvalid v = true := by
  simp only [loads] at h
  split at h
  · cases h
  · rename_i v0 r0 heq
    split_ifs at h
    injection h with hv
    rw [← hv]
    exact (parse_valid (s.length + 1)).1 s v0 r0 heq

/-- Decode-then-reencode is structure preserving: any value produced by
`loads` survives a `dumps`/`loads` roundtrip unchanged. -/
theorem loads_roundtrip {body : List Char} {v : Json} (h : loads body = some v) :
    loads (dumps v) = some v :=
  loads_dumps (loads_some_valid h)

/-! ## Stage lemmas -/

theorem relay_pm_no_acknack (qOk pOk : Bool) (pub : PubOutcome) (inQ outQ : String)
    (body : List Char) (tag : Nat) :
    ((MessageProcessor.process_message qOk pOk pub inQ outQ body).2).filter
      (isAckNackFor tag) = [] := by
  unfold MessageProcessor.process_message
  cases hlb : loads body
  · simp only [hlb]
    split_ifs <;> rfl
  · simp only [hlb]
    by_cases hp : pOk <;> rcases pub <;> simp [hp, List.filter_append, isAckNackFor]

theorem asr_pm_no_acknack (api : Option Json) (pubOk : Bool) (outQ : String) (tag : Nat) :
    ((ASRMessageProcessor.process_message api pubOk outQ).2).filter
      (isAckNackFor tag) = [] := by
  unfold ASRMessageProcessor.process_message
  cases api with
  | none => rfl
  | some resp =>
    repeat' split
    all_goals rfl

/-! # Claims -/

/-- C1: For every message delivered by `basic_get` in a stage's consume
loop, exactly one of `basic_ack` / `basic_nack` is invoked on its
delivery tag — ack when `process_message` returns true, nack-with-requeue
when it returns false, never both and never neither for a delivery that
completes an iteration.  Stated for the relay loop
(`Message_Processor.py`) and the recognition loop (`ASR_API_Manager.py`);
in the latter a `raised` outcome aborts the iteration before any
ack/nack, which the claim's "completes an iteration" proviso excludes. -/
theorem claim_C1_exactly_one_ack_nack (inQ outQ : String)
    (st : MessageProcessor.LoopState) (st2 : ASRMessageProcessor.LoopState)
    (tag : Nat) (body : List Char) (qOk pOk : Bool) (pub : PubOutcome)
    (api : Option Json) (pubOk : Bool) :
    ((MessageProcessor.consume_step inQ outQ st
        (MessageProcessor.Event.deliver tag body qOk pOk pub)).2).filter (isAckNackFor tag)
      = [if (MessageProcessor.process_message qOk pOk pub inQ outQ body).1
          then BrokerAction.ack tag else BrokerAction.nack tag true] ∧
    ((ASRMessageProcessor.consume_step inQ outQ st2
        (ASRMessageProcessor.Event.deliver tag body api pubOk)).2).filter (isAckNackFor tag)
      = (match (ASRMessageProcessor.process_message api pubOk outQ).1 with
         | ProcResult.ok => [BrokerAction.ack tag]
         | ProcResult.requeue => [BrokerAction.nack tag true]
         | ProcResult.raised => []) := by
  constructor
  · simp only [MessageProcessor.consume_step]
    by_cases hc : st.connected <;>
      by_cases hr : (MessageProcessor.process_message qOk pOk pub inQ outQ body).1 <;>
        simp [hc, hr, List.filter_append, relay_pm_no_acknack, isAckNackFor]
  · simp only [ASRMessageProcessor.consume_step]
    cases hres : (ASRMessageProcessor.process_message api pubOk outQ).1 <;>
      by_cases hc : st2.connected <;>
        simp [hres, hc, List.filter_append, asr_pm_no_acknack, isAckNackFor]

/-- C4 counterexample: in the relay stage, a payload that fails JSON
decoding while the quarantine publish fails is NOT acked — contrary to
the claim that decode failures are acked regardless of quarantine
outcome, `process_message` returns `False` and the iteration nacks the
delivery with requeue. -/
theorem claim_C4_counterexample :
    (MessageProcessor.process_message false true PubOutcome.ok "relay_in" "relay_out"
        ('n' :: 'o' :: 'p' :: 'e' :: [])).1 = false ∧
    ((MessageProcessor.consume_step "relay_in" "relay_out" ⟨1, true, false⟩
        (MessageProcessor.Event.deliver 7 ('n' :: 'o' :: 'p' :: 'e' :: [])
          false true PubOutcome.ok)).2).filter (isAckNackFor 7)
      = [BrokerAction.nack 7 true] := by
  exact ⟨rfl, rfl⟩

/-- C4 (amended): in the relay stage's per-iteration processing, when
payload decoding fails the final outcome is ack exactly when the
quarantine publish succeeds, and nack-with-requeue when the quarantine
publish fails. -/
theorem claim_C4_decode_failure_outcome (qOk pOk : Bool) (pub : PubOutcome)
    (inQ outQ : String) (body : List Char) (h : loads body = none)
    (tag : Nat) (st : MessageProcessor.LoopState) :
    (MessageProcessor.process_message qOk pOk pub inQ outQ body).1 = qOk ∧
    ((MessageProcessor.consume_step inQ outQ st
        (MessageProcessor.Event.deliver tag body qOk pOk pub)).2).filter (isAckNackFor tag)
      = [if qOk then BrokerAction.ack tag else BrokerAction.nack tag true] := by
  have h1 : (MessageProcessor.process_message qOk pOk pub inQ outQ body).1 = qOk := by
    unfold MessageProcessor.process_message
    simp only [h]
    cases qOk <;> simp
  refine ⟨h1, ?_⟩
  simp only [MessageProcessor.consume_step]
  by_cases hc : st.connected <;> cases qOk <;>
    simp [hc, h1, List.filter_append, relay_pm_no_acknack, isAckNackFor]

/-- C4 amended witness: a malformed payload with a working quarantine is
acked. -/
theorem claim_C4_decode_failure_outcome_witness :
    (MessageProcessor.process_message true true PubOutcome.ok "q_in" "q_out" ['x']).1 = true ∧
    ((MessageProcessor.consume_step "q_in" "q_out" ⟨1, true, false⟩
        (MessageProcessor.Event.deliver 3 ['x'] true true PubOutcome.ok)).2).filter
      (isAckNackFor 3) = [if true then BrokerAction.ack 3 else BrokerAction.nack 3 true] :=
  claim_C4_decode_failure_outcome true true PubOutcome.ok "q_in" "q_out" ['x'] rfl 3
    ⟨1, true, false⟩

/-- C2 counterexample: the translation stage
(`MT_API_Manager.py:122-127`) acks a structurally-undecodable payload
without publishing anything at all — in particular the payload is not
copied to `<input_queue>_malformedjson`, contradicting the claim that
every stage quarantines malformed input verbatim. -/
theorem claim_C2_counterexample :
    (MTMessageProcessor.process_message none true "MT_out"
        ('n' :: 'o' :: 'p' :: 'e' :: [])).1 = true ∧
    ((MTMessageProcessor.process_message none true "MT_out"
        ('n' :: 'o' :: 'p' :: 'e' :: [])).2).filter
      (fun a => match a with | BrokerAction.publish _ _ => true | _ => false) = [] := by
  exact ⟨rfl, rfl⟩

/-- C2 (amended): only the relay stage implements the quarantine
contract: a payload failing structural decoding is acked and published
verbatim, byte-for-byte, to `<input_queue>_malformedjson`, with
nack-with-requeue only when the quarantine publish itself fails.  The
translation stage acks malformed payloads without publishing any
dead-letter copy, and the synthesis stage nacks them with requeue,
also without any copy. -/
theorem claim_C2_quarantine_by_stage (inQ outQ : String) (body : List Char)
    (h : loads body = none) (qOk pOk : Bool) (pub : PubOutcome)
    (mtApi ttsApi : Option Json) (mtPubOk ttsPassiveOk : Bool) (ttsPub : PubOutcome) :
    ((MessageProcessor.process_message qOk pOk pub inQ outQ body).1 = qOk ∧
      publishesTo (inQ ++ "_malformedjson")
        (MessageProcessor.process_message qOk pOk pub inQ outQ body).2
        = (if qOk then [body] else [])) ∧
    ((MTMessageProcessor.process_message mtApi mtPubOk outQ body).1 = true ∧
      ((MTMessageProcessor.process_message mtApi mtPubOk outQ body).2).filter
        (fun a => match a with | BrokerAction.publish _ _ => true | _ => false) = []) ∧
    ((TTSMessageProcessor.process_message ttsApi ttsPassiveOk ttsPub inQ outQ body).1 = false ∧
      ((TTSMessageProcessor.process_message ttsApi ttsPassiveOk ttsPub inQ outQ body).2).filter
        (fun a => match a with | BrokerAction.publish _ _ => true | _ => false) = []) := by
  refine ⟨⟨?_, ?_⟩, ⟨?_, ?_⟩, ?_, ?_⟩
  · unfold MessageProcessor.process_message
    simp only [h]
    cases qOk <;> simp
  · unfold MessageProcessor.process_message
    simp only [h]
    cases qOk <;> simp [publishesTo]
  · unfold MTMessageProcessor.process_message
    simp only [h]
  · unfold MTMessageProcessor.process_message
    simp only [h]
    rfl
  · unfold TTSMessageProcessor.process_message
    simp only [h]
  · unfold TTSMessageProcessor.process_message
    simp only [h]
    rfl

/-- C2 amended witness at a concrete undecodable payload. -/
theorem claim_C2_quarantine_by_stage_witness :
    ((MessageProcessor.process_message true true PubOutcome.ok "in_q" "out_q" ['x']).1 = true ∧
      publishesTo ("in_q" ++ "_malformedjson")
        (MessageProcessor.process_message true true PubOutcome.ok "in_q" "out_q" ['x']).2
        = (if true then [['x']] else [])) ∧
    ((MTMessageProcessor.process_message none true "out_q" ['x']).1 = true ∧
      ((MTMessageProcessor.process_message none true "out_q" ['x']).2).filter
        (fun a => match a with | BrokerAction.publish _ _ => true | _ => false) = []) ∧
    ((TTSMessageProcessor.process_message none true PubOutcome.ok "in_q" "out_q" ['x']).1
        = false ∧
      ((TTSMessageProcessor.process_message none true PubOutcome.ok "in_q" "out_q" ['x']).2).filter
        (fun a => match a with | BrokerAction.publish _ _ => true | _ => false) = []) :=
  claim_C2_quarantine_by_stage "in_q" "out_q" ['x'] rfl true true PubOutcome.ok
    none none true true PubOutcome.ok

/-- C9: the two stages treat an empty recognized string asymmetrically.
When the external API answers `{"status": "success", "data":
{"recognized_text": ""}}`, the recognition stage publishes
`{"recognized_text": ""}` to its output queue and reports success (the
empty string is not `None`, so the `is None` guard passes); the
translation stage, receiving that very payload, trips its falsy check
(`if not text_to_translate`), acks the message, and publishes nothing —
neither a translation nor a dead-letter copy — so the message is
silently and permanently dropped there. -/
theorem claim_C9_empty_text_asymmetry :
    (ASRMessageProcessor.process_message
        (some (Json.obj [("status".toList, Json.str "success".toList),
          ("data".toList, Json.obj [("recognized_text".toList, Json.str [])])]))
        true "ASR_output").1 = ProcResult.ok ∧
    publishesTo "ASR_output"
      (ASRMessageProcessor.process_message
        (some (Json.obj [("status".toList, Json.str "success".toList),
          ("data".toList, Json.obj [("recognized_text".toList, Json.str [])])]))
        true "ASR_output").2
      = [dumps (Json.obj [("recognized_text".toList, Json.str [])])] ∧
    (MTMessageProcessor.process_message none true "MT_output"
        (dumps (Json.obj [("recognized_text".toList, Json.str [])]))).1 = true ∧
    ((MTMessageProcessor.process_message none true "MT_output"
        (dumps (Json.obj [("recognized_text".toList, Json.str [])]))).2).filter
      (fun a => match a with | BrokerAction.publish _ _ => true | _ => false) = [] ∧
    ((MTMessageProcessor.consume_step "MT_input" "MT_output" ⟨1, true⟩
        (MTMessageProcessor.Event.deliver 5
          (dumps (Json.obj [("recognized_text".toList, Json.str [])])) none true)).2).filter
      (isAckNackFor 5) = [BrokerAction.ack 5] := by
  exact ⟨rfl, rfl, rfl, rfl, rfl⟩

/-- C10: in the delivery stage (`send.py`), an unexpected error — one
that is neither a JSON decode error nor a `requests` network error:
an `AttributeError` from `.get` on a non-dict payload or nested `data`
field, or a non-request exception from the download or the forward —
makes `on_message_received` nack the delivery with `requeue=False` and
perform no other broker action: the message is discarded with no
dead-letter copy. -/
theorem claim_C10_unexpected_error_discards (tag : Nat) (body : List Char)
    (download upload : Send.ReqOutcome) (j : Json) (hj : loads body = some j)
    (hun : isObj j = false ∨
      (isObj (dataField j) = false ∧ isObj j = true) ∨
      (∃ u, pyGetRaw (dataField j) "s3_url" = some u ∧ jfalsy u = false ∧
        (download = Send.ReqOutcome.otherExn ∨
          (download = Send.ReqOutcome.ok ∧ upload = Send.ReqOutcome.otherExn)))) :
    Send.on_message_received tag body download upload = [BrokerAction.nack tag false] := by
  unfold Send.on_message_received
  simp only [hj]
  rcases hun with hno | ⟨hnd, hobj⟩ | ⟨u, hu, hfu, hreq⟩
  · cases j <;> simp [isObj] at hno ⊢
  · match j, hobj with
    | .obj kvs, _ =>
      cases hdf : dataField (Json.obj kvs) <;> simp [hdf, isObj] at hnd ⊢
  · match j with
    | .null | .bool _ | .num _ | .str _ | .arr _ => rfl
    | .obj kvs =>
      cases hdf : dataField (Json.obj kvs) with
      | null => rfl
      | bool b => rfl
      | num n => rfl
      | str s => rfl
      | arr xs => rfl
      | obj kvs2 =>
        simp only [hdf] at hu ⊢
        simp only [hu, hfu]
        rcases hreq with rfl | ⟨rfl, rfl⟩ <;> rfl

/-- C10 witness: a well-formed JSON array payload (no dict, so
`data.get` raises `AttributeError`) is nacked without requeue. -/
theorem claim_C10_unexpected_error_discards_witness :
    Send.on_message_received 4 ('[' :: '1' :: ']' :: [])
      Send.ReqOutcome.ok Send.ReqOutcome.ok = [BrokerAction.nack 4 false] :=
  claim_C10_unexpected_error_discards 4 ('[' :: '1' :: ']' :: [])
    Send.ReqOutcome.ok Send.ReqOutcome.ok (Json.arr [Json.num 1]) rfl (Or.inl rfl)

/-- C6: if the recognition stage's external call yields
`{"status": "success", "data": {"recognized_text": "hello"}}` for the
input audio bytes, then exactly the payload
`{"recognized_text": "hello"}` is published to the output queue (it
parses back to that very object) and the input message is acked. -/
theorem claim_C6_success_path (st : ASRMessageProcessor.LoopState) (tag : Nat)
    (body : List Char) :
    publishesTo "ASR_output"
      (ASRMessageProcessor.process_message
        (some (Json.obj [("status".toList, Json.str "success".toList),
          ("data".toList, Json.obj [("recognized_text".toList, Json.str "hello".toList)])]))
        true "ASR_output").2
      = [dumps (Json.obj [("recognized_text".toList, Json.str "hello".toList)])] ∧
    loads (dumps (Json.obj [("recognized_text".toList, Json.str "hello".toList)]))
      = some (Json.obj [("recognized_text".toList, Json.str "hello".toList)]) ∧
    ((ASRMessageProcessor.consume_step "ASR_input" "ASR_output" st
        (ASRMessageProcessor.Event.deliver tag body
          (some (Json.obj [("status".toList, Json.str "success".toList),
            ("data".toList, Json.obj [("recognized_text".toList, Json.str "hello".toList)])]))
          true)).2).filter (isAckNackFor tag)
      = [BrokerAction.ack tag] := by
  refine ⟨rfl, rfl, ?_⟩
  have hres : (ASRMessageProcessor.process_message
      (some (Json.obj [("status".toList, Json.str "success".toList),
        ("data".toList, Json.obj [("recognized_text".toList, Json.str "hello".toList)])]))
      true "ASR_output").1 = ProcResult.ok := rfl
  simp only [ASRMessageProcessor.consume_step, hres]
  by_cases hc : st.connected <;>
    simp [hc, List.filter_append, asr_pm_no_acknack, isAckNackFor]

/-- C7: for the relay stage, any payload that decodes to a JSON value
`v` is republished (in one loop iteration with a healthy broker) as
`dumps v`, a payload that parses back to a value structurally equal to
`v` — decode followed by re-encode is structure preserving — and the
input message is acked. -/
theorem claim_C7_relay_passthrough (inQ outQ : String) (st : MessageProcessor.LoopState)
    (tag : Nat) (qOk pOk : Bool) (body : List Char) (v : Json)
    (h : loads body = some v) :
    (MessageProcessor.process_message qOk pOk PubOutcome.ok inQ outQ body).1 = true ∧
    publishesTo outQ
      (MessageProcessor.process_message qOk pOk PubOutcome.ok inQ outQ body).2 = [dumps v] ∧
    loads (dumps v) = some v ∧
    ((MessageProcessor.consume_step inQ outQ st
        (MessageProcessor.Event.deliver tag body qOk pOk PubOutcome.ok)).2).filter
      (isAckNackFor tag) = [BrokerAction.ack tag] := by
  have h1 : (MessageProcessor.process_message qOk pOk PubOutcome.ok inQ outQ body).1 = true := by
    unfold MessageProcessor.process_message
    simp only [h]
  refine ⟨h1, ?_, loads_roundtrip h, ?_⟩
  · unfold MessageProcessor.process_message
    simp only [h]
    by_cases hp : pOk <;> simp [hp, publishesTo]
  · simp only [MessageProcessor.consume_step]
    by_cases hc : st.connected <;>
      simp [hc, h1, List.filter_append, relay_pm_no_acknack, isAckNackFor]

/-- C7 witness on the payload `{"a":1}`. -/
theorem claim_C7_relay_passthrough_witness :
    (MessageProcessor.process_message true true PubOutcome.ok "r_in" "r_out"
        (lbraceChar :: quoteChar :: 'a' :: quoteChar :: ':' :: '1' :: rbraceChar :: [])).1
      = true ∧
    publishesTo "r_out"
      (MessageProcessor.process_message true true PubOutcome.ok "r_in" "r_out"
        (lbraceChar :: quoteChar :: 'a' :: quoteChar :: ':' :: '1' :: rbraceChar :: [])).2
      = [dumps (Json.obj [(['a'], Json.num 1)])] ∧
    loads (dumps (Json.obj [(['a'], Json.num 1)])) = some (Json.obj [(['a'], Json.num 1)]) ∧
    ((MessageProcessor.consume_step "r_in" "r_out" ⟨1, true, false⟩
        (MessageProcessor.Event.deliver 9
          (lbraceChar :: quoteChar :: 'a' :: quoteChar :: ':' :: '1' :: rbraceChar :: [])
          true true PubOutcome.ok)).2).filter (isAckNackFor 9)
      = [BrokerAction.ack 9] :=
  claim_C7_relay_passthrough "r_in" "r_out" ⟨1, true, false⟩ 9 true true
    (lbraceChar :: quoteChar :: 'a' :: quoteChar :: ':' :: '1' :: rbraceChar :: [])
    (Json.obj [(['a'], Json.num 1)]) rfl

theorem min_double_pow (k : Nat) : min (min (2 ^ k) 60 * 2) 60 = min (2 ^ (k + 1)) 60 := by
  rcases le_total (2 ^ k) 60 with hle | hge
  · rw [min_eq_left hle, ← pow_succ]
  · rw [min_eq_right hge]
    have h1 : (60 : Nat) ≤ 2 ^ (k + 1) := by
      have : 2 ^ k ≤ 2 ^ (k + 1) := by rw [pow_succ]; omega
      omega
    rw [min_eq_right h1]
    omega

theorem relay_failStreak_delay (inQ outQ : String) (st : MessageProcessor.LoopState)
    (hst : st.retryDelay = 1) :
    ∀ k, (MessageProcessor.failStreak inQ outQ st k).retryDelay = min (2 ^ k) 60 := by
  intro k
  induction k with
  | zero => simp [MessageProcessor.failStreak, hst]
  | succ k ihk =>
    show (MessageProcessor.consume_step inQ outQ
      (MessageProcessor.failStreak inQ outQ st k) MessageProcessor.Event.amqpDown).1.retryDelay
        = min (2 ^ (k + 1)) 60
    simp only [MessageProcessor.consume_step]
    rw [ihk, min_double_pow]

theorem asr_failStreak_delay (inQ outQ : String) (st : ASRMessageProcessor.LoopState)
    (hst : st.retryDelay = 1) :
    ∀ k, (ASRMessageProcessor.failStreak inQ outQ st k).retryDelay = min (2 ^ k) 60 := by
  intro k
  induction k with
  | zero => simp [ASRMessageProcessor.failStreak, hst]
  | succ k ihk =>
    show (ASRMessageProcessor.consume_step inQ outQ
      (ASRMessageProcessor.failStreak inQ outQ st k) ASRMessageProcessor.Event.amqpDown).1.retryDelay
        = min (2 ^ (k + 1)) 60
    simp only [ASRMessageProcessor.consume_step]
    rw [ihk, min_double_pow]

/-- C3: backoff schedule of the consume loops.  Starting from a
freshly-reset state (`retry_delay = 1`), after `k` consecutive
broker-connectivity failures the next failure iteration sleeps
`min(2^k, 60)` seconds — i.e. the sleep before reconnect attempt `k+1`
is `min(2^((k+1)-1), 60)` seconds: 1, 2, 4, ... capped at 60 — in both
the relay loop and the recognition loop.  After a successful iteration
(relay: any successful poll; recognition: an iteration that performed a
reconnect, where line 143 resets the delay) the delay is 1 second
again. -/
theorem claim_C3_backoff_schedule (inQ outQ : String)
    (st : MessageProcessor.LoopState) (hst : st.retryDelay = 1)
    (st2 : ASRMessageProcessor.LoopState) (hst2 : st2.retryDelay = 1) (k : Nat)
    (tag : Nat) (body : List Char) (qOk pOk : Bool) (pub : PubOutcome)
    (api : Option Json) (pubOk : Bool) (stAny : MessageProcessor.LoopState)
    (stDis : ASRMessageProcessor.LoopState) (hdis : stDis.connected = false) :
    BrokerAction.sleepMs (min (2 ^ k) 60 * 1000) ∈
      (MessageProcessor.consume_step inQ outQ (MessageProcessor.failStreak inQ outQ st k)
        MessageProcessor.Event.amqpDown).2 ∧
    BrokerAction.sleepMs (min (2 ^ k) 60 * 1000) ∈
      (ASRMessageProcessor.consume_step inQ outQ (ASRMessageProcessor.failStreak inQ outQ st2 k)
        ASRMessageProcessor.Event.amqpDown).2 ∧
    ((MessageProcessor.consume_step inQ outQ stAny
        (MessageProcessor.Event.deliver tag body qOk pOk pub)).1).retryDelay = 1 ∧
    ((MessageProcessor.consume_step inQ outQ stAny
        MessageProcessor.Event.empty).1).retryDelay = 1 ∧
    ((ASRMessageProcessor.consume_step inQ outQ stDis
        (ASRMessageProcessor.Event.deliver tag body api pubOk)).1).retryDelay = 1 ∧
    ((ASRMessageProcessor.consume_step inQ outQ stDis
        ASRMessageProcessor.Event.empty).1).retryDelay = 1 := by
  refine ⟨?_, ?_, ?_, ?_, ?_, ?_⟩
  · have hd := relay_failStreak_delay inQ outQ st hst k
    simp only [MessageProcessor.consume_step, hd]
    by_cases hc : (MessageProcessor.failStreak inQ outQ st k).connected <;> simp [hc]
  · have hd := asr_failStreak_delay inQ outQ st2 hst2 k
    simp only [ASRMessageProcessor.consume_step, hd]
    by_cases hc : (ASRMessageProcessor.failStreak inQ outQ st2 k).connected <;> simp [hc]
  · rfl
  · rfl
  · simp only [ASRMessageProcessor.consume_step, hdis]
    cases hres : (ASRMessageProcessor.process_message api pubOk outQ).1 <;> simp [hres]
  · simp only [ASRMessageProcessor.consume_step, hdis]
    rfl

/-- C3 witness: after seven consecutive failures the eighth sleep is
capped at 60 seconds, and resets apply at concrete states. -/
theorem claim_C3_backoff_schedule_witness :
    BrokerAction.sleepMs (min (2 ^ 7) 60 * 1000) ∈
      (MessageProcessor.consume_step "b_in" "b_out"
        (MessageProcessor.failStreak "b_in" "b_out" ⟨1, true, false⟩ 7)
        MessageProcessor.Event.amqpDown).2 ∧
    BrokerAction.sleepMs (min (2 ^ 7) 60 * 1000) ∈
      (ASRMessageProcessor.consume_step "b_in" "b_out"
        (ASRMessageProcessor.failStreak "b_in" "b_out" ⟨1, true⟩ 7)
        ASRMessageProcessor.Event.amqpDown).2 ∧
    ((MessageProcessor.consume_step "b_in" "b_out" ⟨8, true, false⟩
        (MessageProcessor.Event.deliver 2 ['x'] true true PubOutcome.ok)).1).retryDelay = 1 ∧
    ((MessageProcessor.consume_step "b_in" "b_out" ⟨8, true, false⟩
        MessageProcessor.Event.empty).1).retryDelay = 1 ∧
    ((ASRMessageProcessor.consume_step "b_in" "b_out" ⟨8, false⟩
        (ASRMessageProcessor.Event.deliver 2 ['x'] none true)).1).retryDelay = 1 ∧
    ((ASRMessageProcessor.consume_step "b_in" "b_out" ⟨8, false⟩
        ASRMessageProcessor.Event.empty).1).retryDelay = 1 :=
  claim_C3_backoff_schedule "b_in" "b_out" ⟨1, true, false⟩ rfl ⟨1, true⟩ rfl 7 2 ['x']
    true true PubOutcome.ok none true ⟨8, true, false⟩ ⟨8, false⟩ rfl

/-- C8 counterexample: in the relay loop (`Message_Processor.py:188-195`)
the fixed delay after an unexpected error is 1 second
(`asyncio.sleep(1)`), not about 5 seconds: the iteration sleeps 1000 ms
(plus the 0.1 s trailing sleep) and never 5000 ms. -/
theorem claim_C8_counterexample :
    BrokerAction.sleepMs 1000 ∈
      (MessageProcessor.consume_step "c_in" "c_out" ⟨1, true, false⟩
        MessageProcessor.Event.unexpected).2 ∧
    BrokerAction.sleepMs 5000 ∉
      (MessageProcessor.consume_step "c_in" "c_out" ⟨1, true, false⟩
        MessageProcessor.Event.unexpected).2 := by
  decide

/-- C8 (amended): no consume loop terminates on an unexpected
(unclassified) error: the exception is caught at the loop boundary and
the iteration yields a successor state, an error log entry is emitted,
the connection is closed exactly when it was open, no ack/nack is
decided, and a short fixed delay elapses — 5 seconds in the recognition
and translation loops, 1 second (plus the 0.1-second trailing sleep) in
the relay and synthesis loops. -/
theorem claim_C8_unexpected_error_handling (inQ outQ : String)
    (st : MessageProcessor.LoopState) (st2 : TTSMessageProcessor.LoopState)
    (st3 : ASRMessageProcessor.LoopState) (st4 : MTMessageProcessor.LoopState) :
    (BrokerAction.log "ERROR" ∈
        (MessageProcessor.consume_step inQ outQ st MessageProcessor.Event.unexpected).2 ∧
      (BrokerAction.closeConnection ∈
          (MessageProcessor.consume_step inQ outQ st MessageProcessor.Event.unexpected).2
        ↔ st.connected = true) ∧
      BrokerAction.sleepMs 1000 ∈
        (MessageProcessor.consume_step inQ outQ st MessageProcessor.Event.unexpected).2 ∧
      (∀ tag, ((MessageProcessor.consume_step inQ outQ st
          MessageProcessor.Event.unexpected).2).filter (isAckNackFor tag) = []) ∧
      ((MessageProcessor.consume_step inQ outQ st
          MessageProcessor.Event.unexpected).1).connected = false) ∧
    (BrokerAction.log "ERROR" ∈
        (TTSMessageProcessor.consume_step inQ outQ st2 TTSMessageProcessor.Event.unexpected).2 ∧
      (BrokerAction.closeConnection ∈
          (TTSMessageProcessor.consume_step inQ outQ st2 TTSMessageProcessor.Event.unexpected).2
        ↔ st2.connected = true) ∧
      BrokerAction.sleepMs 1000 ∈
        (TTSMessageProcessor.consume_step inQ outQ st2 TTSMessageProcessor.Event.unexpected).2 ∧
      ((TTSMessageProcessor.consume_step inQ outQ st2
          TTSMessageProcessor.Event.unexpected).1).connected = false) ∧
    (BrokerAction.log "ERROR" ∈
        (ASRMessageProcessor.consume_step inQ outQ st3 ASRMessageProcessor.Event.unexpected).2 ∧
      (BrokerAction.closeConnection ∈
          (ASRMessageProcessor.consume_step inQ outQ st3 ASRMessageProcessor.Event.unexpected).2
        ↔ st3.connected = true) ∧
      BrokerAction.sleepMs 5000 ∈
        (ASRMessageProcessor.consume_step inQ outQ st3 ASRMessageProcessor.Event.unexpected).2 ∧
      ((ASRMessageProcessor.consume_step inQ outQ st3
          ASRMessageProcessor.Event.unexpected).1).connected = false) ∧
    (BrokerAction.log "ERROR" ∈
        (MTMessageProcessor.consume_step inQ outQ st4 MTMessageProcessor.Event.unexpected).2 ∧
      (BrokerAction.closeConnection ∈
          (MTMessageProcessor.consume_step inQ outQ st4 MTMessageProcessor.Event.unexpected).2
        ↔ st4.connected = true) ∧
      BrokerAction.sleepMs 5000 ∈
        (MTMessageProcessor.consume_step inQ outQ st4 MTMessageProcessor.Event.unexpected).2 ∧
      ((MTMessageProcessor.consume_step inQ outQ st4
          MTMessageProcessor.Event.unexpected).1).connected = false) := by
  refine ⟨⟨?_, ?_, ?_, ?_, ?_⟩, ⟨?_, ?_, ?_, ?_⟩, ⟨?_, ?_, ?_, ?_⟩, ⟨?_, ?_, ?_, ?_⟩⟩ <;>
    first
    | (by_cases hc : st.connected <;> simp [MessageProcessor.consume_step, hc, isAckNackFor])
    | (by_cases hc : st2.connected <;> simp [TTSMessageProcessor.consume_step, hc])
    | (by_cases hc : st3.connected <;> simp [ASRMessageProcessor.consume_step, hc])
    | (by_cases hc : st4.connected <;> simp [MTMessageProcessor.consume_step, hc])

theorem asr_publish_only_success (api : Option Json) (pubOk : Bool) (outQ q : String)
    (b : List Char)
    (hmem : BrokerAction.publish q b ∈ (ASRMessageProcessor.process_message api pubOk outQ).2) :
    ∃ resp, api = some resp ∧ statusSuccess resp = true := by
  rcases api with _ | resp
  · simp [ASRMessageProcessor.process_message] at hmem
  · refine ⟨resp, rfl, ?_⟩
    unfold ASRMessageProcessor.process_message at hmem
    repeat' split at hmem <;> simp_all

theorem asr_failure_requeue (api : Option Json) (pubOk : Bool) (outQ : String)
    (h : api = none ∨ ∃ resp, api = some resp ∧
      (jfalsy resp = true ∨ (isObj resp = true ∧ statusSuccess resp = false))) :
    (ASRMessageProcessor.process_message api pubOk outQ).1 = ProcResult.requeue ∧
    ((ASRMessageProcessor.process_message api pubOk outQ).2).filter
      (fun a => match a with | BrokerAction.publish _ _ => true | _ => false) = [] := by
  rcases h with rfl | ⟨resp, rfl, hf | ⟨hobj, hss⟩⟩
  · exact ⟨rfl, rfl⟩
  · unfold ASRMessageProcessor.process_message
    simp [hf]
  · unfold ASRMessageProcessor.process_message
    by_cases hf : jfalsy resp <;> simp [hf, hobj, hss]

theorem mt_publish_only_success (api : Option Json) (pubOk : Bool) (outQ : String)
    (body : List Char) (q : String) (b : List Char)
    (hmem : BrokerAction.publish q b ∈
      (MTMessageProcessor.process_message api pubOk outQ body).2) :
    ∃ resp, api = some resp ∧ statusSuccess resp = true := by
  unfold MTMessageProcessor.process_message at hmem
  cases hlb : loads body with
  | none => simp [hlb] at hmem
  | some j =>
    simp only [hlb] at hmem
    cases hext : MTMessageProcessor.extract_recognized_text j with
    | none => simp [hext] at hmem
    | some t =>
      simp only [hext] at hmem
      by_cases hft : jfalsy t
      · simp [hft] at hmem
      · simp only [hft, Bool.false_eq_true, if_false] at hmem
        rcases api with _ | resp
        · simp at hmem
        · refine ⟨resp, rfl, ?_⟩
          by_cases hss : statusSuccess resp = true
          · exact hss
          · rw [Bool.not_eq_true] at hss
            simp [hss] at hmem

theorem mt_failure_requeue (api : Option Json) (pubOk : Bool) (outQ : String)
    (body : List Char) (j t : Json) (hj : loads body = some j)
    (ht : MTMessageProcessor.extract_recognized_text j = some t) (hft : jfalsy t = false)
    (hapi : api = none ∨ ∃ resp, api = some resp ∧ statusSuccess resp = false) :
    (MTMessageProcessor.process_message api pubOk outQ body).1 = false ∧
    ((MTMessageProcessor.process_message api pubOk outQ body).2).filter
      (fun a => match a with | BrokerAction.publish _ _ => true | _ => false) = [] := by
  unfold MTMessageProcessor.process_message
  simp only [hj, ht, hft, Bool.false_eq_true, if_false]
  rcases hapi with rfl | ⟨resp, rfl, hss⟩
  · exact ⟨rfl, rfl⟩
  · simp [hss]

theorem tts_publish_only_success (api : Option Json) (pOk : Bool) (pub : PubOutcome)
    (inQ outQ : String) (body : List Char) (q : String) (b : List Char)
    (hmem : BrokerAction.publish q b ∈
      (TTSMessageProcessor.process_message api pOk pub inQ outQ body).2) :
    ∃ resp, api = some resp ∧ statusSuccess resp = true := by
  unfold TTSMessageProcessor.process_message at hmem
  cases hlb : loads body with
  | none => simp [hlb] at hmem
  | some tj =>
    simp only [hlb] at hmem
    cases hext : TTSMessageProcessor.extract_translated_text tj with
    | none => simp [hext] at hmem
    | some t =>
      simp only [hext] at hmem
      rcases api with _ | resp
      · simp at hmem
      · refine ⟨resp, rfl, ?_⟩
        by_cases hss : statusSuccess resp = true
        · exact hss
        · rw [Bool.not_eq_true] at hss
          simp [hss] at hmem

theorem tts_failure_requeue (api : Option Json) (pOk : Bool) (pub : PubOutcome)
    (inQ outQ : String) (body : List Char) (tj t : Json) (hj : loads body = some tj)
    (ht : TTSMessageProcessor.extract_translated_text tj = some t)
    (hapi : api = none ∨ ∃ resp, api = some resp ∧ statusSuccess resp = false) :
    (TTSMessageProcessor.process_message api pOk pub inQ outQ body).1 = false ∧
    ((TTSMessageProcessor.process_message api pOk pub inQ outQ body).2).filter
      (fun a => match a with | BrokerAction.publish _ _ => true | _ => false) = [] := by
  unfold TTSMessageProcessor.process_message
  simp only [hj, ht]
  rcases hapi with rfl | ⟨resp, rfl, hss⟩
  · exact ⟨rfl, rfl⟩
  · simp [hss]

/-- C5: for every transform stage (recognition, translation, synthesis),
a result is published to the stage's output queue only when the external
call returned an HTTP success whose JSON body's status field equals
"success"; and whenever the call failed (timeout, HTTP error, network
error — modelled as the inference helper returning `None`) or the
response's status is not "success", nothing is published and
`process_message` reports failure, so the consume loop nacks the message
with requeue.  For the translation and synthesis stages the
failure-direction statement is about messages whose payload decoded and
yielded a usable text, since earlier exits never reach the external
call. -/
theorem claim_C5_publish_only_on_success :
    (∀ (api : Option Json) (pubOk : Bool) (outQ q : String) (b : List Char),
      BrokerAction.publish q b ∈ (ASRMessageProcessor.process_message api pubOk outQ).2 →
      ∃ resp, api = some resp ∧ statusSuccess resp = true) ∧
    (∀ (api : Option Json) (pubOk : Bool) (outQ : String),
      (api = none ∨ ∃ resp, api = some resp ∧
        (jfalsy resp = true ∨ (isObj resp = true ∧ statusSuccess resp = false))) →
      (ASRMessageProcessor.process_message api pubOk outQ).1 = ProcResult.requeue ∧
      ((ASRMessageProcessor.process_message api pubOk outQ).2).filter
        (fun a => match a with | BrokerAction.publish _ _ => true | _ => false) = []) ∧
    (∀ (api : Option Json) (pubOk : Bool) (outQ : String) (body : List Char)
        (q : String) (b : List Char),
      BrokerAction.publish q b ∈ (MTMessageProcessor.process_message api pubOk outQ body).2 →
      ∃ resp, api = some resp ∧ statusSuccess resp = true) ∧
    (∀ (api : Option Json) (pubOk : Bool) (outQ : String) (body : List Char) (j t : Json),
      loads body = some j → MTMessageProcessor.extract_recognized_text j = some t →
      jfalsy t = false →
      (api = none ∨ ∃ resp, api = some resp ∧ statusSuccess resp = false) →
      (MTMessageProcessor.process_message api pubOk outQ body).1 = false ∧
      ((MTMessageProcessor.process_message api pubOk outQ body).2).filter
        (fun a => match a with | BrokerAction.publish _ _ => true | _ => false) = []) ∧
    (∀ (api : Option Json) (pOk : Bool) (pub : PubOutcome) (inQ outQ : String)
        (body : List Char) (q : String) (b : List Char),
      BrokerAction.publish q b ∈
        (TTSMessageProcessor.process_message api pOk pub inQ outQ body).2 →
      ∃ resp, api = some resp ∧ statusSuccess resp = true) ∧
    (∀ (api : Option Json) (pOk : Bool) (pub : PubOutcome) (inQ outQ : String)
        (body : List Char) (tj t : Json),
      loads body = some tj → TTSMessageProcessor.extract_translated_text tj = some t →
      (api = none ∨ ∃ resp, api = some resp ∧ statusSuccess resp = false) →
      (TTSMessageProcessor.process_message api pOk pub inQ outQ body).1 = false ∧
      ((TTSMessageProcessor.process_message api pOk pub inQ outQ body).2).filter
        (fun a => match a with | BrokerAction.publish _ _ => true | _ => false) = []) :=
  ⟨fun api pubOk outQ q b hmem => asr_publish_only_success api pubOk outQ q b hmem,
   fun api pubOk outQ h => asr_failure_requeue api pubOk outQ h,
   fun api pubOk outQ body q b hmem => mt_publish_only_success api pubOk outQ body q b hmem,
   fun api pubOk outQ body j t hj ht hft hapi =>
     mt_failure_requeue api pubOk outQ body j t hj ht hft hapi,
   fun api pOk pub inQ outQ body q b hmem =>
     tts_publish_only_success api pOk pub inQ outQ body q b hmem,
   fun api pOk pub inQ outQ body tj t hj ht hapi =>
     tts_failure_requeue api pOk pub inQ outQ body tj t hj ht hapi⟩

theorem claim_C5_publish_only_on_success_witness :
    (ASRMessageProcessor.process_message none true "MT_input").1 = ProcResult.requeue ∧
    ((ASRMessageProcessor.process_message none true "MT_input").2).filter
      (fun a => match a with | BrokerAction.publish _ _ => true | _ => false) = [] :=
  claim_C5_publish_only_on_success.2.1 none true "MT_input" (Or.inl rfl)
